import Mathlib

/-!
# Verification of the sentry-wizard Cordova patching engine and package check

A shallow embedding of `src/lib/Steps/Integrations/Cordova.ts` and
`src/lib/Helper/Package.ts`.

* The pbxproj descriptor (`proj.hash.project.objects`) is embedded as `XcProj`:
  the `PBXShellScriptBuildPhase` section is an association list from keys to
  entries (an entry is either a phase object or a comment string, mirroring the
  pbxproj convention that `key ++ "_comment"` maps to a comment string), the
  `PBXNativeTarget` section is an association list of targets, each owning an
  optional ordered `buildPhases` array of `{value, comment}` references.
  All remaining phase sections (`PBXSourcesBuildPhase`, ...) are kept abstract
  in `otherPhases` — the code never touches them.
* The three JavaScript regular expressions of the source are embedded as
  executable matchers over `List Char` (`matchApply` for
  `/sentry-cli\s+upload-dsym/`, `matchRevert` for
  `/@sentry\/cli\/bin\/sentry-cli\s+upload-dsym\b/`, and `matchSentryCliCI`
  for `/sentry-cli/gi`).
* The external `xcode` library (`addBuildPhase`, `writeSync`, `parse`,
  `getFirstTarget`) and the helper `patchMatchingFile` live outside the given
  sources; they are modelled from the spec where a definition notes so.
-/

/-! ## JavaScript regular-expression model -/

/-- JavaScript `\s` character class (whitespace as used by `\s+` in the
source's regexes): ASCII whitespace plus the Unicode space separators. -/
def isJsWs (c : Char) : Bool :=
  c = ' ' || c = '\t' || c = '\n' || c = '\x0b' || c = '\x0c' || c = '\r' ||
  c = '\u00A0' || c = '\u1680' ||
  (0x2000 ≤ c.toNat && c.toNat ≤ 0x200A) ||
  c = '\u2028' || c = '\u2029' || c = '\u202F' || c = '\u205F' ||
  c = '\u3000' || c = '\uFEFF'

/-- JavaScript `\w` word character, used by the `\b` word boundary of the
revert regex. -/
def isWordChar (c : Char) : Bool :=
  ('a'.toNat ≤ c.toNat && c.toNat ≤ 'z'.toNat) ||
  ('A'.toNat ≤ c.toNat && c.toNat ≤ 'Z'.toNat) ||
  ('0'.toNat ≤ c.toNat && c.toNat ≤ '9'.toNat) ||
  c = '_'

/-- Consume the literal `pat` from the front of `l`; `some rest` on success. -/
def dropLit : List Char → List Char → Option (List Char)
  | [], l => some l
  | _ :: _, [] => none
  | p :: ps, c :: cs => if c = p then dropLit ps cs else none

/-- Matcher for `/sentry-cli\s+upload-dsym/` anchored at the head of the
list: the literal `sentry-cli`, one or more `\s` characters, then the literal
`upload-dsym`.  (`\s+` is greedy; since `upload-dsym` does not start with a
whitespace character the greedy run is exactly the maximal whitespace run.) -/
def applyAt (l : List Char) : Bool :=
  match dropLit "sentry-cli".data l with
  | none => false
  | some r =>
    let s := r.span isJsWs
    decide (s.1 ≠ []) && (dropLit "upload-dsym".data s.2).isSome

/-- Matcher for `/@sentry\/cli\/bin\/sentry-cli\s+upload-dsym\b/` anchored at
the head of the list.  The `\b` after the word character `m` requires the next
character to be a non-word character, or the end of the input. -/
def revertAt (l : List Char) : Bool :=
  match dropLit "@sentry/cli/bin/sentry-cli".data l with
  | none => false
  | some r =>
    let s := r.span isJsWs
    decide (s.1 ≠ []) &&
      match dropLit "upload-dsym".data s.2 with
      | none => false
      | some [] => true
      | some (c :: _) => !isWordChar c

/-- An unanchored regex search: does `p` match at some position of `l`? -/
def containsMatch (p : List Char → Bool) : List Char → Bool
  | [] => p []
  | c :: cs => p (c :: cs) || containsMatch p cs

/-- `script.shellScript.match(/sentry-cli\s+upload-dsym/)` is non-null
(Cordova.ts line 163, the Apply idempotency check). -/
def matchApply (s : String) : Bool := containsMatch applyAt s.data

/-- `script.shellScript.match(/@sentry\/cli\/bin\/sentry-cli\s+upload-dsym\b/)`
is non-null (Cordova.ts line 109, the Revert matcher). -/
def matchRevert (s : String) : Bool := containsMatch revertAt s.data

/-- Case-insensitive anchored matcher for `/sentry-cli/i`: the literal
`sentry-cli` matched after lowercasing. -/
def sentryCliAt (l : List Char) : Bool :=
  (dropLit "sentry-cli".data (l.map Char.toLower)).isSome

/-- `/sentry-cli/gi` matched against file contents (Cordova.ts line 66, the
orchestrator's content pre-check; the `g` flag does not affect whether a
match exists). -/
def matchSentryCliCI (s : String) : Bool := containsMatch sentryCliAt s.data

/-! ## The project-descriptor model -/

/-- A record of the `PBXShellScriptBuildPhase` section (a phase object with an
`isa` type tag, a shell path and a shell script body). -/
structure ShellPhase where
  isa : String
  shellPath : String
  shellScript : String
  deriving Repr, DecidableEq

/-- A value of the `PBXShellScriptBuildPhase` section: either a phase object
or a comment string (the pbxproj `key ++ "_comment"` convention). -/
inductive ScriptEntry where
  | phase (p : ShellPhase)
  | comment (s : String)
  deriving Repr, DecidableEq

/-- One element of a target's `buildPhases` array: `{value, comment}`. -/
structure BPRef where
  value : String
  comment : String
  deriving Repr, DecidableEq

/-- A `PBXNativeTarget` record; `buildPhases` is `none` when the field is
absent (`if (phases)` in the source; an empty array is truthy in JavaScript
and is therefore `some []`). -/
structure NativeTarget where
  buildPhases : Option (List BPRef)
  deriving Repr, DecidableEq

/-- The parsed project descriptor (`proj.hash.project.objects` together with
the uuid returned by `proj.getFirstTarget()`).  `otherPhases` stands for every
phase section other than `PBXShellScriptBuildPhase`; the code never reads or
writes it. -/
structure XcProj where
  shellScriptPhases : List (String × ScriptEntry)
  otherPhases : List (String × ScriptEntry)
  nativeTargets : List (String × NativeTarget)
  firstTargetUuid : String
  deriving Repr, DecidableEq

/-- JavaScript property lookup on an object embedded as an association list
(object keys are unique, enforced by `Nodup` hypotheses where it matters). -/
def alistLookup {α : Type} : List (String × α) → String → Option α
  | [], _ => none
  | e :: rest, k => if e.1 = k then some e.2 else alistLookup rest k

/-- JavaScript `delete obj[k]`, embedded as dropping every entry with key `k`
(the same thing on an association list with `Nodup` keys). -/
def alistRemove {α : Type} (m : List (String × α)) (k : String) : List (String × α) :=
  m.filter (fun e => e.1 ≠ k)

/-- Mutate the target stored at key `uuid`, leaving every other entry as it
is. -/
def updateTarget (ts : List (String × NativeTarget)) (uuid : String)
    (f : NativeTarget → NativeTarget) : List (String × NativeTarget) :=
  ts.map (fun e => if e.1 = uuid then (e.1, f e.2) else e)

/-! ## Revert: `unpatchXcodeBuildScripts` (Cordova.ts lines 95-124) -/

/-- `phases.splice(i, 1); break` after scanning for the first `i` with
`phases[i].value === key`: remove the first matching reference only. -/
def spliceFirst (key : String) : List BPRef → List BPRef
  | [] => []
  | r :: rs => if r.value = key then rs else r :: spliceFirst key rs

/-- One iteration of the `for (const key of Object.keys(scripts))` loop of
`unpatchXcodeBuildScripts`: skip comments and already-deleted keys; for a
phase whose `shellScript` matches the revert regex, delete the phase record,
delete its `key ++ "_comment"` record, and splice the first reference with
that value out of the first target's `buildPhases` (when that field exists). -/
def unpatchOne (proj : XcProj) (key : String) : XcProj :=
  match alistLookup proj.shellScriptPhases key with
  | none => proj
  | some (ScriptEntry.comment _) => proj
  | some (ScriptEntry.phase script) =>
    if matchRevert script.shellScript then
      { proj with
        shellScriptPhases :=
          alistRemove (alistRemove proj.shellScriptPhases key) (key ++ "_comment"),
        nativeTargets :=
          updateTarget proj.nativeTargets proj.firstTargetUuid
            (fun t => { t with buildPhases := t.buildPhases.map (spliceFirst key) }) }
    else proj

/-- The loop body of `unpatchXcodeBuildScripts` over a fixed key snapshot. -/
def unpatchGo (proj : XcProj) : List String → XcProj
  | [] => proj
  | k :: ks => unpatchGo (unpatchOne proj k) ks

/-- `unpatchXcodeBuildScripts(proj)`: iterate over the snapshot
`Object.keys(scripts)` taken before any deletion. -/
def unpatchXcodeBuildScripts (proj : XcProj) : XcProj :=
  unpatchGo proj (proj.shellScriptPhases.map Prod.fst)

/-! ## Apply: `addNewXcodeBuildPhaseForSymbols` (Cordova.ts lines 161-180) -/

/-- The shell script installed by Apply.  The TypeScript source writes
`'...properties\\n'`, i.e. a literal backslash followed by `n`. -/
def sentryUploadScript : String :=
  "export SENTRY_PROPERTIES=sentry.properties\\n../../plugins/cordova-plugin-sentry/node_modules/@sentry/cli/bin/sentry-cli upload-dsym"

/-- All strings of a list concatenated (used to build a fresh key). -/
def concatAll (l : List String) : String := l.foldl (fun a s => a ++ s) ""

/-- Modelled from the spec: the external `xcode` library generates a fresh
uuid for a new build phase ("`id`: opaque string identifier, unique within a
project file", §3).  We realize freshness deterministically: the
concatenation of all used keys extended by one character is longer than, and
hence different from, every used key. -/
def freshKey (used : List String) : String := concatAll used ++ "A"

/-- Modelled from the spec: `proj.addBuildPhase` of the external `xcode`
library, per §4.2 `addShellScriptPhase` — "creates a new BuildPhase with kind
ShellScript, appends its id to the selected target's `buildPhases` sequence" —
together with the §3 paired-comment convention: the new phase record and its
`key ++ "_comment"` comment record are added to the phase section, and a
`{value, comment}` reference is appended at the end of the first target's
`buildPhases` (an absent `buildPhases` field is treated as empty). -/
def addBuildPhase (proj : XcProj) (isaTag comment shellPath shellScript : String) : XcProj :=
  let key := freshKey (proj.shellScriptPhases.map Prod.fst ++ proj.otherPhases.map Prod.fst)
  { proj with
    shellScriptPhases := proj.shellScriptPhases ++
      [(key, ScriptEntry.phase { isa := isaTag, shellPath := shellPath, shellScript := shellScript }),
       (key ++ "_comment", ScriptEntry.comment comment)],
    nativeTargets :=
      updateTarget proj.nativeTargets proj.firstTargetUuid
        (fun t => { t with
          buildPhases := some (t.buildPhases.getD [] ++ [{ value := key, comment := comment }]) }) }

/-- `addNewXcodeBuildPhaseForSymbols(buildScripts, proj)`: if any collected
script's `shellScript` matches the Apply regex, return; otherwise add the
Sentry upload build phase. -/
def addNewXcodeBuildPhaseForSymbols (buildScripts : List ShellPhase) (proj : XcProj) : XcProj :=
  if buildScripts.any (fun script => matchApply script.shellScript) then proj
  else
    addBuildPhase proj "PBXShellScriptBuildPhase" "Upload Debug Symbols to Sentry"
      "/bin/sh" sentryUploadScript

/-- The collection loop of `patchXcodeProj` (lines 135-143): every own entry
of the `PBXShellScriptBuildPhase` section whose `isa` field is truthy (comment
strings have no `isa` and are skipped). -/
def collectBuildScripts (proj : XcProj) : List ShellPhase :=
  proj.shellScriptPhases.filterMap (fun e =>
    match e.2 with
    | ScriptEntry.phase v => if v.isa ≠ "" then some v else none
    | ScriptEntry.comment _ => none)

/-- The descriptor-level mutation performed by `patchXcodeProj`: collect the
build scripts, then run `addNewXcodeBuildPhaseForSymbols`. -/
def patchXcodeProjDescr (proj : XcProj) : XcProj :=
  addNewXcodeBuildPhaseForSymbols (collectBuildScripts proj) proj

/-! ## Serialization and parsing (modelled from the spec)

The input file format is out of the spec's scope: "Treat as an opaque
structured-text grammar; the spec does not require reproducing a specific
vendor format, only the invariants in §3/§4.2" (§6).  What the engine relies
on is §4.2: `parse(bytes) -> ProjectDescriptor | ParseError`,
`serialize(descriptor) -> bytes`, deterministic serialization, and round-trip
stability.  We therefore realize the opaque grammar by a concrete
length-prefixed encoding of `XcProj` with an executable parser, and prove the
round-trip property the spec demands. -/

/-- Unary length marker: `n` ones followed by a colon. -/
def encNat (n : Nat) : List Char := List.replicate n '1' ++ [':']

/-- A length-prefixed string. -/
def encStr (s : String) : List Char := encNat s.data.length ++ s.data

/-- A length-prefixed list. -/
def encList {α : Type} (enc : α → List Char) (xs : List α) : List Char :=
  encNat xs.length ++ (xs.map enc).flatten

/-- A tagged optional value. -/
def encOpt {α : Type} (enc : α → List Char) : Option α → List Char
  | none => ['N']
  | some x => 'S' :: enc x

/-- A pair, first component then second. -/
def encPair {α β : Type} (encA : α → List Char) (encB : β → List Char)
    (x : α × β) : List Char :=
  encA x.1 ++ encB x.2

def encBPRef (r : BPRef) : List Char := encStr r.value ++ encStr r.comment

def encShellPhase (p : ShellPhase) : List Char :=
  encStr p.isa ++ encStr p.shellPath ++ encStr p.shellScript

def encScriptEntry : ScriptEntry → List Char
  | ScriptEntry.phase p => 'P' :: encShellPhase p
  | ScriptEntry.comment s => 'C' :: encStr s

def encNativeTarget (t : NativeTarget) : List Char :=
  encOpt (encList encBPRef) t.buildPhases

def encXcProj (p : XcProj) : List Char :=
  encList (encPair encStr encScriptEntry) p.shellScriptPhases ++
  encList (encPair encStr encScriptEntry) p.otherPhases ++
  encList (encPair encStr encNativeTarget) p.nativeTargets ++
  encStr p.firstTargetUuid

def decNat : List Char → Option (Nat × List Char)
  | [] => none
  | c :: cs =>
    if c = ':' then some (0, cs)
    else if c = '1' then (decNat cs).map (fun x => (x.1 + 1, x.2))
    else none

def decStr (l : List Char) : Option (String × List Char) :=
  (decNat l).bind (fun x =>
    if x.1 ≤ x.2.length then some (⟨x.2.take x.1⟩, x.2.drop x.1) else none)

def decMany {α : Type} (dec : List Char → Option (α × List Char)) :
    Nat → List Char → Option (List α × List Char)
  | 0, l => some ([], l)
  | n + 1, l =>
    (dec l).bind (fun x => (decMany dec n x.2).map (fun y => (x.1 :: y.1, y.2)))

def decList {α : Type} (dec : List Char → Option (α × List Char))
    (l : List Char) : Option (List α × List Char) :=
  (decNat l).bind (fun x => decMany dec x.1 x.2)

def decOpt {α : Type} (dec : List Char → Option (α × List Char)) :
    List Char → Option (Option α × List Char)
  | [] => none
  | c :: cs =>
    if c = 'N' then some (none, cs)
    else if c = 'S' then (dec cs).map (fun x => (some x.1, x.2))
    else none

def decPair {α β : Type} (decA : List Char → Option (α × List Char))
    (decB : List Char → Option (β × List Char))
    (l : List Char) : Option ((α × β) × List Char) :=
  (decA l).bind (fun x => (decB x.2).map (fun y => ((x.1, y.1), y.2)))

def decBPRef (l : List Char) : Option (BPRef × List Char) :=
  (decStr l).bind (fun v =>
    (decStr v.2).map (fun c => ({ value := v.1, comment := c.1 }, c.2)))

def decShellPhase (l : List Char) : Option (ShellPhase × List Char) :=
  (decStr l).bind (fun i =>
    (decStr i.2).bind (fun sp =>
      (decStr sp.2).map (fun ss =>
        ({ isa := i.1, shellPath := sp.1, shellScript := ss.1 }, ss.2))))

def decScriptEntry : List Char → Option (ScriptEntry × List Char)
  | [] => none
  | c :: cs =>
    if c = 'P' then (decShellPhase cs).map (fun x => (ScriptEntry.phase x.1, x.2))
    else if c = 'C' then (decStr cs).map (fun x => (ScriptEntry.comment x.1, x.2))
    else none

def decNativeTarget (l : List Char) : Option (NativeTarget × List Char) :=
  (decOpt (decList decBPRef) l).map (fun x => ({ buildPhases := x.1 }, x.2))

def decXcProj (l : List Char) : Option (XcProj × List Char) :=
  (decList (decPair decStr decScriptEntry) l).bind (fun ssp =>
    (decList (decPair decStr decScriptEntry) ssp.2).bind (fun op =>
      (decList (decPair decStr decNativeTarget) op.2).bind (fun nt =>
        (decStr nt.2).map (fun ft =>
          ({ shellScriptPhases := ssp.1, otherPhases := op.1,
             nativeTargets := nt.1, firstTargetUuid := ft.1 }, ft.2)))))

/-- Modelled from the spec: `serialize(descriptor) -> bytes` (§4.2, realized
for the external `xcode` library's `proj.writeSync()`), deterministic by
construction as §4.2 requires. -/
def serializeXcodeProj (p : XcProj) : String := ⟨encXcProj p⟩

/-- Modelled from the spec: `parse(bytes) -> ProjectDescriptor | ParseError`
(§4.2, realized for the external `xcode` library's `proj.parse`); the whole
input must be consumed. -/
def parseXcodeProj (s : String) : Option XcProj :=
  match decXcProj s.data with
  | some (p, []) => some p
  | _ => none

/-! ## The Patch Engine (Cordova.ts lines 80-93 and 126-159) -/

/-- The tail of `patchXcodeProj` (lines 147-156): serialize the mutated
descriptor; if the new contents equal the original contents resolve with no
value (`resolve()`), otherwise resolve with the new contents. -/
def patchXcodeProjOut (contents : String) (proj : XcProj) : Option String :=
  let newContents := serializeXcodeProj (patchXcodeProjDescr proj)
  if newContents = contents then none else some newContents

/-- `patchXcodeProj(contents, filename)` end to end: parse, mutate, compare.
`Except.error` is the `reject(err)` path on a parse failure. -/
def patchXcodeProjFile (contents : String) : Except String (Option String) :=
  match parseXcodeProj contents with
  | none => Except.error "ParseError"
  | some proj => Except.ok (patchXcodeProjOut contents proj)

/-- `unpatchXcodeProj(contents, filename)` resolves with
`proj.writeSync()` after `unpatchXcodeBuildScripts(proj)` — unconditionally;
the byte comparison for Revert happens in the caller. -/
def unpatchXcodeProjOut (proj : XcProj) : String :=
  serializeXcodeProj (unpatchXcodeBuildScripts proj)

/-- Modelled from the spec: `patchMatchingFile` (in `src/lib/Helper/File.ts`,
which is not among the given sources) per §4.3 steps 4-6 — compare the
patcher's new bytes to the original bytes; if identical (or the patcher
resolved with no value) signal a no-op and do not write, otherwise hand the
new bytes back to be written. -/
def patchMatchingFileWrite (contents : String) (patcherResult : Option String) :
    Option String :=
  match patcherResult with
  | none => none
  | some newContents => if newContents = contents then none else some newContents

/-- The bytes on disk after one Apply run of the engine on a file holding
`contents`: a parse failure or a no-op leaves the file as it was; otherwise
the returned new contents are written. -/
def fileAfterApply (contents : String) : String :=
  match patchXcodeProjFile contents with
  | Except.error _ => contents
  | Except.ok none => contents
  | Except.ok (some newContents) => newContents

/-- The write decision of a full Apply pass over one file. -/
def applyWriteDecision (contents : String) (proj : XcProj) : Option String :=
  patchMatchingFileWrite contents (patchXcodeProjOut contents proj)

/-- The write decision of a full Revert pass over one file. -/
def revertWriteDecision (contents : String) (proj : XcProj) : Option String :=
  patchMatchingFileWrite contents (some (unpatchXcodeProjOut proj))

/-! ## The platform decision rule (Cordova.ts lines 59-78) -/

/-- `shouldConfigurePlatform(platform)`.  The two file-system observations are
passed in as booleans: `propsFileExists` is
`exists(platforms/<platform>/sentry.properties)` and `contentMatched` is
`matchesContent('**/*.xcodeproj/project.pbxproj', /sentry-cli/gi)` (both from
`src/lib/Helper/File.ts`, an external observation here).  `result` starts
false, each failed check sets it, and uninstall mode returns its negation. -/
def shouldConfigurePlatform (uninstall propsFileExists contentMatched : Bool) : Bool :=
  let result := false
  let result := if !propsFileExists then true else result
  let result := if !contentMatched then true else result
  if uninstall then !result else result

/-! ## The platform orchestrator `emit` (Cordova.ts lines 22-48) -/

/-- The events a platform's unit of work can perform, in order. -/
inductive EmitEvent where
  | patchStarted
  | patchFinished
  | propertiesWriteStarted
  | propertiesWriteFinished
  | successLogged (platform : String)
  | errorLogged (msg : String)
  deriving Repr, DecidableEq

/-- The observable outcomes of the two awaited steps inside one platform's
unit: `patchOutcome` is the settlement of `patchMatchingFile` on the
platform's glob (rejection = e.g. a `ParseError` or `WriteError`), and
`propertiesOutcome` the settlement of `addSentryProperties` (rejection =
e.g. a `DirectoryCreateError` or `WriteError`). -/
structure PlatformEnv where
  patchOutcome : Except String Unit
  propertiesOutcome : Except String Unit

/-- The `try` body of one platform's unit (lines 31-39): for `ios` await the
patch first; then await the properties write; the first rejection aborts the
rest of the body. -/
def platformUnitBody (platform : String) (env : PlatformEnv) : Except String Unit :=
  match (if platform = "ios" then env.patchOutcome else Except.ok ()) with
  | Except.error e => Except.error e
  | Except.ok _ => env.propertiesOutcome

/-- The event trace of one platform's unit, including the `catch` (line 41):
a rejection of either awaited step is caught and logged via `red(e)`, and the
steps after the rejection never start. -/
def platformUnitTrace (platform : String) (env : PlatformEnv) : List EmitEvent :=
  if platform = "ios" then
    match env.patchOutcome with
    | Except.error e => [EmitEvent.patchStarted, EmitEvent.errorLogged e]
    | Except.ok _ =>
      match env.propertiesOutcome with
      | Except.error e =>
        [EmitEvent.patchStarted, EmitEvent.patchFinished,
         EmitEvent.propertiesWriteStarted, EmitEvent.errorLogged e]
      | Except.ok _ =>
        [EmitEvent.patchStarted, EmitEvent.patchFinished,
         EmitEvent.propertiesWriteStarted, EmitEvent.propertiesWriteFinished,
         EmitEvent.successLogged platform]
  else
    match env.propertiesOutcome with
    | Except.error e => [EmitEvent.propertiesWriteStarted, EmitEvent.errorLogged e]
    | Except.ok _ =>
      [EmitEvent.propertiesWriteStarted, EmitEvent.propertiesWriteFinished,
       EmitEvent.successLogged platform]

/-- How one platform's mapped async function settles: the `try`/`catch`
around the whole body converts every rejection into a logged warning, so the
promise fulfills either way. -/
def runPlatformUnit (platform : String) (env : PlatformEnv) : Except String Unit :=
  match platformUnitBody platform env with
  | Except.ok _ => Except.ok ()
  | Except.error _ => Except.ok ()

/-- Modelled from the spec: `Promise.all(promises).then(resolve).catch(reject)`
over the per-platform units — the overall promise fulfills with every unit's
settlement once all have settled, and rejects only if some unit's promise
itself rejects. -/
def emitModel (platforms : List String) (envs : String → PlatformEnv) :
    Except String (List (Except String Unit)) :=
  let settled := platforms.map (fun pl => runPlatformUnit pl (envs pl))
  match settled.find? (fun r => match r with | Except.error _ => true | Except.ok _ => false) with
  | some (Except.error e) => Except.error e
  | _ => Except.ok settled

/-! ## `checkPackageVersion` (Package.ts lines 10-65) -/

/-- The external `semver` collaborator (§1 "the semantic-version comparator"),
kept abstract: `valid`/`validRange` return a cleaned string or `none` (JS
`null`), `satisfies`/`subset` compare a version resp. a range against the
acceptable range. -/
structure SemverOracle where
  valid : String → Option String
  validRange : String → Option String
  satisfies : String → String → Bool
  subset : String → String → Bool

/-- JavaScript truthiness of a string-or-null value (`if (valid(version))`,
`!!cleanedUserVersion`): non-null and non-empty. -/
def truthyOptStr : Option String → Bool
  | none => false
  | some s => s ≠ ""

/-- `fulfillsVersionRange(version, acceptableVersions, canBeLatest)`:
`'latest'` is accepted exactly when `canBeLatest`; otherwise a truthy
`valid(version)` is checked with `satisfies`, else a truthy
`validRange(version)` is checked with `subset`, else the bogus format is
rejected. -/
def fulfillsVersionRange (sv : SemverOracle) (version acceptableVersions : String)
    (canBeLatest : Bool) : Bool :=
  if version = "latest" then canBeLatest
  else if truthyOptStr (sv.valid version) then
    sv.satisfies ((sv.valid version).getD "") acceptableVersions
  else if truthyOptStr (sv.validRange version) then
    sv.subset ((sv.validRange version).getD "") acceptableVersions
  else false

/-- The `package.json` object: either dependency map may be absent
(`appPackage?.dependencies?.[packageName]`). -/
structure PackageDotJson where
  dependencies : Option (List (String × String))
  devDependencies : Option (List (String × String))

/-- `appPackage?.deps?.[packageName] ?? ''`: the looked-up version string, or
the empty string when the map or the entry is absent. -/
def depLookup (deps : Option (List (String × String))) (name : String) : String :=
  match deps with
  | none => ""
  | some m => (alistLookup m name).getD ""

/-- `checkPackageVersion(appPackage, packageName, acceptableVersions,
canBeLatest)`: false when neither dependency entry is present (both falsy);
false when neither present version fulfills the range; true otherwise. -/
def checkPackageVersion (sv : SemverOracle) (appPackage : PackageDotJson)
    (packageName acceptableVersions : String) (canBeLatest : Bool) : Bool :=
  let depsVersion := depLookup appPackage.dependencies packageName
  let devDepsVersion := depLookup appPackage.devDependencies packageName
  if depsVersion = "" && devDepsVersion = "" then false
  else if !fulfillsVersionRange sv depsVersion acceptableVersions canBeLatest &&
          !fulfillsVersionRange sv devDepsVersion acceptableVersions canBeLatest then false
  else true

/-! ## Derived predicates used in the statements -/

/-- Is the entry a phase object (as opposed to a comment string)? -/
def isPhaseEntry : ScriptEntry → Bool
  | ScriptEntry.phase _ => true
  | ScriptEntry.comment _ => false

/-- A phase object's `isa` type tag is truthy (vacuously true of comments). -/
def phaseIsaTruthy : ScriptEntry → Bool
  | ScriptEntry.phase s => s.isa ≠ ""
  | ScriptEntry.comment _ => true

/-- A key the Revert loop kills: it holds a phase object whose `shellScript`
matches the revert regex. -/
def killedKey (p : XcProj) (k : String) : Bool :=
  match alistLookup p.shellScriptPhases k with
  | some (ScriptEntry.phase s) => matchRevert s.shellScript
  | _ => false

/-- A key deleted as the paired comment of a killed key. -/
def casualtyKey (p : XcProj) (k : String) : Bool :=
  (p.shellScriptPhases.map Prod.fst).any (fun k0 => killedKey p k0 && k = k0 ++ "_comment")

/-- Keep an entry given the list `D` of killed keys so far: neither a killed
key nor the paired comment of one. -/
def keepEntryB (D : List String) (e : String × ScriptEntry) : Bool :=
  decide (e.1 ∉ D) && decide (¬ ∃ k ∈ D, e.1 = k ++ "_comment")

/-- Keep a build-phase reference given the killed keys so far. -/
def keepRefB (D : List String) (r : BPRef) : Bool := decide (r.value ∉ D)

/-- The descriptor after the killed keys `D` have been processed: their
records and paired comment records are gone from the phase section and their
references are gone from the first target's `buildPhases`. -/
def stateOf (p : XcProj) (D : List String) : XcProj :=
  { p with
    shellScriptPhases := p.shellScriptPhases.filter (keepEntryB D),
    nativeTargets :=
      updateTarget p.nativeTargets p.firstTargetUuid
        (fun t => { t with buildPhases := t.buildPhases.map (List.filter (keepRefB D)) }) }

/-- The first target's `buildPhases`, empty when the target or the field is
absent. -/
def firstTargetRefs (p : XcProj) : List BPRef :=
  ((alistLookup p.nativeTargets p.firstTargetUuid).bind NativeTarget.buildPhases).getD []

/-- Well-formedness of a parsed descriptor (all of it holds of every real
pbxproj parse result): object keys are unique in both sections used, every
key paired as `killed ++ "_comment"` holds a comment string (the §3
paired-comment invariant), the first target's phase references are distinct,
every phase object carries its truthy `isa` type tag, and the uuid returned
by `getFirstTarget` denotes an existing native target. -/
def WfProj (p : XcProj) : Prop :=
  (p.shellScriptPhases.map Prod.fst).Nodup ∧
  (p.nativeTargets.map Prod.fst).Nodup ∧
  (∀ e ∈ p.shellScriptPhases, casualtyKey p e.1 = true → isPhaseEntry e.2 = false) ∧
  ((firstTargetRefs p).map BPRef.value).Nodup ∧
  (∀ e ∈ p.shellScriptPhases, phaseIsaTruthy e.2 = true) ∧
  (alistLookup p.nativeTargets p.firstTargetUuid).isSome = true

instance (p : XcProj) : Decidable (WfProj p) := by
  unfold WfProj; infer_instance

/-- Does the entry hold a phase whose script matches the Apply regex? -/
def entryMatchesApply : ScriptEntry → Bool
  | ScriptEntry.phase s => matchApply s.shellScript
  | ScriptEntry.comment _ => false

/-- A small concrete well-formed descriptor with an installed Sentry phase
(paired with its comment record), one unrelated shell-script phase, and a
first target listing both. -/
def projEx : XcProj where
  shellScriptPhases :=
    [("AA", ScriptEntry.phase
        { isa := "PBXShellScriptBuildPhase", shellPath := "/bin/sh",
          shellScript := sentryUploadScript }),
     ("AA_comment", ScriptEntry.comment "Upload Debug Symbols to Sentry"),
     ("BB", ScriptEntry.phase
        { isa := "PBXShellScriptBuildPhase", shellPath := "/bin/sh",
          shellScript := "echo build" })]
  otherPhases :=
    [("CC", ScriptEntry.phase
        { isa := "PBXSourcesBuildPhase", shellPath := "", shellScript := "" })]
  nativeTargets :=
    [("T1",
      { buildPhases := some
          [{ value := "AA", comment := "Upload Debug Symbols to Sentry" },
           { value := "BB", comment := "Run Script" }] })]
  firstTargetUuid := "T1"

/-- A small concrete well-formed descriptor with no Sentry phase. -/
def projFresh : XcProj where
  shellScriptPhases :=
    [("BB", ScriptEntry.phase
        { isa := "PBXShellScriptBuildPhase", shellPath := "/bin/sh",
          shellScript := "echo build" })]
  otherPhases := []
  nativeTargets :=
    [("T1", { buildPhases := some [{ value := "BB", comment := "Run Script" }] })]
  firstTargetUuid := "T1"

/-- A descriptor holding one phase whose script is the C5 counterexample
body: Apply's regex matches it, Revert's does not. -/
def projBoundary : XcProj where
  shellScriptPhases :=
    [("DD", ScriptEntry.phase
        { isa := "PBXShellScriptBuildPhase", shellPath := "/bin/sh",
          shellScript := "sentry-cli upload-dsym" })]
  otherPhases := []
  nativeTargets :=
    [("T1", { buildPhases := some [{ value := "DD", comment := "Custom upload" }] })]
  firstTargetUuid := "T1"

/-- A well-formed two-target descriptor whose matching Sentry phase is
referenced by the second target, not the first. -/
def projTwoTargets : XcProj where
  shellScriptPhases :=
    [("AA", ScriptEntry.phase
        { isa := "PBXShellScriptBuildPhase", shellPath := "/bin/sh",
          shellScript := sentryUploadScript }),
     ("AA_comment", ScriptEntry.comment "Upload Debug Symbols to Sentry")]
  otherPhases := []
  nativeTargets :=
    [("T1", { buildPhases := some [] }),
     ("T2",
      { buildPhases := some
          [{ value := "AA", comment := "Upload Debug Symbols to Sentry" }] })]
  firstTargetUuid := "T1"

/-- A platform environment whose patch step rejects (for example a
`ParseError` on a malformed descriptor). -/
def envFail : PlatformEnv where
  patchOutcome := Except.error "ParseError"
  propertiesOutcome := Except.ok ()

/-- A platform environment where both steps fulfill. -/
def envOk : PlatformEnv where
  patchOutcome := Except.ok ()
  propertiesOutcome := Except.ok ()

/-- Environments injecting a failure into the iOS unit only. -/
def envsEx : String → PlatformEnv := fun pl => if pl = "ios" then envFail else envOk

/-- The all-healthy baseline environments. -/
def envsExBase : String → PlatformEnv := fun _ => envOk

/-- A tiny concrete semver oracle. -/
def svEx : SemverOracle where
  valid := fun v => if v = "1.2.3" then some "1.2.3" else none
  validRange := fun v => if v = "^1.0.0" then some ">=1.0.0 <2.0.0" else none
  satisfies := fun v r => v = "1.2.3" && r = "^1.0.0"
  subset := fun _ _ => false

/-- A tiny concrete `package.json`. -/
def pkgEx : PackageDotJson where
  dependencies := some [("@sentry/cli", "1.2.3")]
  devDependencies := none

/-! ## Round-trip of the modelled serializer -/

theorem decNat_enc (n : Nat) (r : List Char) : decNat (encNat n ++ r) = some (n, r) := by
  induction n with
  | zero => simp [encNat, decNat]
  | succ n ih =>
    have h1 : encNat (n + 1) ++ r = '1' :: (encNat n ++ r) := by
      simp [encNat, List.replicate_succ]
    rw [h1]
    simp [decNat, ih]

theorem decStr_enc (s : String) (r : List Char) : decStr (encStr s ++ r) = some (s, r) := by
  simp only [encStr, List.append_assoc, decStr, decNat_enc, Option.bind_some]
  have hle : s.data.length ≤ (s.data ++ r).length := by
    simp [List.length_append]
  simp [hle, List.take_left, List.drop_left]

theorem decMany_enc {α : Type} (dec : List Char → Option (α × List Char))
    (enc : α → List Char) (h : ∀ x r, dec (enc x ++ r) = some (x, r)) :
    ∀ (xs : List α) (r : List Char),
      decMany dec xs.length ((xs.map enc).flatten ++ r) = some (xs, r) := by
  intro xs
  induction xs with
  | nil => intro r; simp [decMany]
  | cons x xs ih =>
    intro r
    simp [decMany, List.append_assoc, h, ih]

theorem decList_enc {α : Type} (dec : List Char → Option (α × List Char))
    (enc : α → List Char) (h : ∀ x r, dec (enc x ++ r) = some (x, r))
    (xs : List α) (r : List Char) :
    decList dec (encList enc xs ++ r) = some (xs, r) := by
  simp [decList, encList, List.append_assoc, decNat_enc, decMany_enc dec enc h]

theorem decOpt_enc {α : Type} (dec : List Char → Option (α × List Char))
    (enc : α → List Char) (h : ∀ x r, dec (enc x ++ r) = some (x, r))
    (o : Option α) (r : List Char) :
    decOpt dec (encOpt enc o ++ r) = some (o, r) := by
  cases o with
  | none => simp [encOpt, decOpt]
  | some x => simp [encOpt, decOpt, h]

theorem decBPRef_enc (x : BPRef) (r : List Char) :
    decBPRef (encBPRef x ++ r) = some (x, r) := by
  simp [decBPRef, encBPRef, List.append_assoc, decStr_enc]

theorem decShellPhase_enc (x : ShellPhase) (r : List Char) :
    decShellPhase (encShellPhase x ++ r) = some (x, r) := by
  simp [decShellPhase, encShellPhase, List.append_assoc, decStr_enc]

theorem decScriptEntry_enc (x : ScriptEntry) (r : List Char) :
    decScriptEntry (encScriptEntry x ++ r) = some (x, r) := by
  cases x with
  | phase p => simp [encScriptEntry, decScriptEntry, decShellPhase_enc]
  | comment s => simp [encScriptEntry, decScriptEntry, decStr_enc]

theorem decNativeTarget_enc (x : NativeTarget) (r : List Char) :
    decNativeTarget (encNativeTarget x ++ r) = some (x, r) := by
  simp [decNativeTarget, encNativeTarget,
    decOpt_enc _ _ (decList_enc _ _ decBPRef_enc) x.buildPhases]

theorem decPair_enc {α β : Type}
    (decA : List Char → Option (α × List Char)) (encA : α → List Char)
    (decB : List Char → Option (β × List Char)) (encB : β → List Char)
    (hA : ∀ x r, decA (encA x ++ r) = some (x, r))
    (hB : ∀ x r, decB (encB x ++ r) = some (x, r))
    (x : α × β) (r : List Char) :
    decPair decA decB (encPair encA encB x ++ r) = some (x, r) := by
  simp [decPair, encPair, List.append_assoc, hA, hB]

theorem decXcProj_enc (p : XcProj) (r : List Char) :
    decXcProj (encXcProj p ++ r) = some (p, r) := by
  simp [decXcProj, encXcProj, List.append_assoc,
    decList_enc _ _ (decPair_enc _ _ _ _ decStr_enc decScriptEntry_enc),
    decList_enc _ _ (decPair_enc _ _ _ _ decStr_enc decNativeTarget_enc),
    decStr_enc]

/-- The spec round-trip stability (§4.2, §8): parsing a serialized
descriptor recovers it. -/
theorem parse_serialize (p : XcProj) : parseXcodeProj (serializeXcodeProj p) = some p := by
  have h := decXcProj_enc p []
  simp only [List.append_nil] at h
  simp [parseXcodeProj, serializeXcodeProj, h]

/-! ## Lemmas about the regex model -/

theorem dropLit_eq_some {pat l r : List Char} : dropLit pat l = some r ↔ l = pat ++ r := by
  induction pat generalizing l with
  | nil => simp [dropLit]
  | cons p ps ih =>
    cases l with
    | nil => simp [dropLit]
    | cons c cs =>
      by_cases hc : c = p
      · subst hc; simp [dropLit, ih]
      · simp [dropLit, hc]

theorem suffix_of_dropLit {pat l r : List Char} (h : dropLit pat l = some r) : r <:+ l :=
  ⟨pat, (dropLit_eq_some.mp h).symm⟩

theorem containsMatch_iff {p : List Char → Bool} {l : List Char} :
    containsMatch p l = true ↔ ∃ t, t <:+ l ∧ p t = true := by
  induction l with
  | nil =>
    constructor
    · intro h; exact ⟨[], List.suffix_refl _, h⟩
    · rintro ⟨t, ht, hp⟩
      rw [List.suffix_nil.mp ht] at hp
      exact hp
  | cons c cs ih =>
    simp only [containsMatch, Bool.or_eq_true, ih]
    constructor
    · rintro (h | ⟨t, ht, hp⟩)
      · exact ⟨c :: cs, List.suffix_refl _, h⟩
      · exact ⟨t, ht.trans (List.suffix_cons c cs), hp⟩
    · rintro ⟨t, ht, hp⟩
      rcases List.suffix_cons_iff.mp ht with h | h
      · subst h; exact Or.inl hp
      · exact Or.inr ⟨t, h, hp⟩

theorem revertPat_split :
    "@sentry/cli/bin/sentry-cli".data = "@sentry/cli/bin/".data ++ "sentry-cli".data := by
  decide

/-- Every position where the revert regex matches yields a (nearby) position
where the apply regex matches. -/
theorem applyAt_of_revertAt {l : List Char} (h : revertAt l = true) :
    ∃ t, t <:+ l ∧ applyAt t = true := by
  unfold revertAt at h
  cases hd : dropLit "@sentry/cli/bin/sentry-cli".data l with
  | none => rw [hd] at h; simp at h
  | some r =>
    rw [hd] at h
    simp only [Bool.and_eq_true, decide_eq_true_eq] at h
    have hl : l = "@sentry/cli/bin/".data ++ ("sentry-cli".data ++ r) := by
      rw [← List.append_assoc, ← revertPat_split]
      exact dropLit_eq_some.mp hd
    refine ⟨"sentry-cli".data ++ r, ⟨"@sentry/cli/bin/".data, hl.symm⟩, ?_⟩
    unfold applyAt
    rw [dropLit_eq_some.mpr rfl]
    simp only [Bool.and_eq_true, decide_eq_true_eq]
    refine ⟨h.1, ?_⟩
    rcases h with ⟨-, h2⟩
    cases hdu : dropLit "upload-dsym".data (List.span isJsWs r).2 with
    | none => rw [hdu] at h2; simp at h2
    | some rest => simp [hdu]

/-- The revert matcher is strictly stronger than the apply matcher: a shell
script Revert would remove is one Apply considers already patched. -/
theorem matchApply_of_matchRevert {s : String} (h : matchRevert s = true) :
    matchApply s = true := by
  unfold matchRevert at h
  unfold matchApply
  rcases containsMatch_iff.mp h with ⟨t, ht, hr⟩
  rcases applyAt_of_revertAt hr with ⟨t2, ht2, ha⟩
  exact containsMatch_iff.mpr ⟨t2, ht2.trans ht, ha⟩

theorem lower_sentryCli :
    "sentry-cli".data.map Char.toLower = "sentry-cli".data := by
  decide

/-- An apply-regex match position is also a case-insensitive `sentry-cli`
match position. -/
theorem sentryCliAt_of_applyAt {l : List Char} (h : applyAt l = true) :
    sentryCliAt l = true := by
  unfold applyAt at h
  cases hd : dropLit "sentry-cli".data l with
  | none => rw [hd] at h; simp at h
  | some r =>
    have hl : l = "sentry-cli".data ++ r := dropLit_eq_some.mp hd
    unfold sentryCliAt
    rw [hl, List.map_append, lower_sentryCli, dropLit_eq_some.mpr rfl]
    rfl

/-- A script Apply considers already patched also matches the orchestrator's
`/sentry-cli/gi` content pre-check. -/
theorem matchSentryCliCI_of_matchApply {s : String} (h : matchApply s = true) :
    matchSentryCliCI s = true := by
  unfold matchApply at h
  unfold matchSentryCliCI
  rcases containsMatch_iff.mp h with ⟨t, ht, ha⟩
  exact containsMatch_iff.mpr ⟨t, ht, sentryCliAt_of_applyAt ha⟩

/-- The script Apply installs matches Apply's own idempotency regex. -/
theorem matchApply_sentryUploadScript : matchApply sentryUploadScript = true := by
  decide

/-- The script Apply installs also matches Revert's removal regex. -/
theorem matchRevert_sentryUploadScript : matchRevert sentryUploadScript = true := by
  decide

/-! ## Lemmas about association lists, targets and fresh keys -/

theorem alistLookup_cons {α : Type} (e : String × α) (rest : List (String × α)) (k : String) :
    alistLookup (e :: rest) k = if e.1 = k then some e.2 else alistLookup rest k := rfl

theorem alistLookup_mem {α : Type} {m : List (String × α)} {k : String} {v : α}
    (h : alistLookup m k = some v) : (k, v) ∈ m := by
  induction m with
  | nil => simp [alistLookup] at h
  | cons e rest ih =>
    obtain ⟨a, b⟩ := e
    rw [alistLookup_cons] at h
    by_cases ha : a = k
    · subst ha
      simp at h
      subst h
      exact List.mem_cons_self _ _
    · rw [if_neg ha] at h
      exact List.mem_cons_of_mem _ (ih h)

theorem alistLookup_eq_none_iff {α : Type} {m : List (String × α)} {k : String} :
    alistLookup m k = none ↔ k ∉ m.map Prod.fst := by
  induction m with
  | nil => simp [alistLookup]
  | cons e rest ih =>
    rw [alistLookup_cons]
    by_cases ha : e.1 = k
    · simp [ha]
    · have : ¬ k = e.1 := fun hk => ha hk.symm
      simp [ha, this, ih]

theorem mem_alistLookup {α : Type} {m : List (String × α)} (hm : (m.map Prod.fst).Nodup)
    {k : String} {v : α} (h : (k, v) ∈ m) : alistLookup m k = some v := by
  induction m with
  | nil => simp at h
  | cons e rest ih =>
    rw [List.map_cons, List.nodup_cons] at hm
    rw [alistLookup_cons]
    rcases List.mem_cons.mp h with he | hrest
    · rw [← he]
      simp
    · by_cases ha : e.1 = k
      · exfalso
        apply hm.1
        rw [ha]
        exact List.mem_map_of_mem Prod.fst hrest
      · rw [if_neg ha]
        exact ih hm.2 hrest

theorem alistLookup_filter {α : Type} {m : List (String × α)} (hm : (m.map Prod.fst).Nodup)
    (q : String × α → Bool) (k : String) :
    alistLookup (m.filter q) k =
      (alistLookup m k).bind (fun v => if q (k, v) = true then some v else none) := by
  induction m with
  | nil => simp [alistLookup]
  | cons e rest ih =>
    obtain ⟨a, b⟩ := e
    rw [List.map_cons, List.nodup_cons] at hm
    rw [List.filter_cons]
    by_cases ha : a = k
    · subst ha
      by_cases hq : q (a, b) = true
      · rw [if_pos hq]
        simp [alistLookup_cons, hq]
      · rw [if_neg hq]
        have hnone : alistLookup (List.filter q rest) a = none :=
          alistLookup_eq_none_iff.mpr
            (fun hmem => hm.1 (((List.filter_sublist rest).map Prod.fst).subset hmem))
        simp [alistLookup_cons, hq, hnone]
    · by_cases hq : q (a, b) = true
      · rw [if_pos hq]
        simp [alistLookup_cons, ha, ih hm.2]
      · rw [if_neg hq]
        simp [alistLookup_cons, ha, ih hm.2]

theorem updateTarget_cons (e : String × NativeTarget) (rest : List (String × NativeTarget))
    (u : String) (f : NativeTarget → NativeTarget) :
    updateTarget (e :: rest) u f =
      (if e.1 = u then (e.1, f e.2) else e) :: updateTarget rest u f := rfl

theorem updateTarget_eq_of_not_mem {ts : List (String × NativeTarget)} {u : String}
    (f : NativeTarget → NativeTarget) (h : u ∉ ts.map Prod.fst) : updateTarget ts u f = ts := by
  induction ts with
  | nil => rfl
  | cons e rest ih =>
    rw [List.map_cons, List.mem_cons] at h
    push_neg at h
    rw [updateTarget_cons, if_neg (fun he => h.1 he.symm), ih h.2]

theorem alistLookup_updateTarget (ts : List (String × NativeTarget)) (u : String)
    (f : NativeTarget → NativeTarget) :
    alistLookup (updateTarget ts u f) u = (alistLookup ts u).map f := by
  induction ts with
  | nil => simp [alistLookup, updateTarget]
  | cons e rest ih =>
    rw [updateTarget_cons]
    by_cases he : e.1 = u
    · rw [if_pos he, alistLookup_cons, alistLookup_cons]
      simp [he]
    · rw [if_neg he, alistLookup_cons, alistLookup_cons, if_neg he, if_neg he, ih]

theorem alistLookup_updateTarget_ne (ts : List (String × NativeTarget)) (u : String)
    (f : NativeTarget → NativeTarget) (k : String) (h : k ≠ u) :
    alistLookup (updateTarget ts u f) k = alistLookup ts k := by
  induction ts with
  | nil => rfl
  | cons e rest ih =>
    rw [updateTarget_cons]
    by_cases hek : e.1 = k
    · have heu : ¬ e.1 = u := fun heu => h (hek ▸ heu)
      rw [if_neg heu, alistLookup_cons, alistLookup_cons, if_pos hek, if_pos hek]
    · by_cases heu : e.1 = u
      · rw [if_pos heu, alistLookup_cons, alistLookup_cons, if_neg hek, if_neg hek]
        exact ih
      · rw [if_neg heu, alistLookup_cons, alistLookup_cons, if_neg hek, if_neg hek]
        exact ih

theorem updateTarget_comp (ts : List (String × NativeTarget)) (u : String)
    (f g : NativeTarget → NativeTarget) :
    updateTarget (updateTarget ts u f) u g = updateTarget ts u (fun t => g (f t)) := by
  induction ts with
  | nil => rfl
  | cons e rest ih =>
    rw [updateTarget_cons, updateTarget_cons, updateTarget_cons, ih]
    by_cases he : e.1 = u
    · rw [if_pos he, if_pos he, if_pos he]
    · rw [if_neg he, if_neg he, if_neg he]

theorem updateTarget_congr {ts : List (String × NativeTarget)} {u : String}
    {f g : NativeTarget → NativeTarget} (hts : (ts.map Prod.fst).Nodup)
    (h : ∀ t, alistLookup ts u = some t → f t = g t) :
    updateTarget ts u f = updateTarget ts u g := by
  induction ts with
  | nil => rfl
  | cons e rest ih =>
    rw [List.map_cons, List.nodup_cons] at hts
    rw [updateTarget_cons, updateTarget_cons]
    by_cases he : e.1 = u
    · have hf : f e.2 = g e.2 := h e.2 (by rw [alistLookup_cons, if_pos he])
      rw [if_pos he, if_pos he, hf]
      have hnm : u ∉ rest.map Prod.fst := he ▸ hts.1
      rw [updateTarget_eq_of_not_mem f hnm, updateTarget_eq_of_not_mem g hnm]
    · rw [if_neg he, if_neg he]
      refine congrArg _ (ih hts.2 (fun t ht => h t ?_))
      rw [alistLookup_cons, if_neg he]
      exact ht

theorem length_foldl_append (l : List String) (acc : String) :
    (l.foldl (fun a s => a ++ s) acc).length = acc.length + (l.map String.length).sum := by
  induction l generalizing acc with
  | nil => simp
  | cons s rest ih =>
    rw [List.foldl_cons, ih, String.length_append, List.map_cons, List.sum_cons]
    omega

theorem freshKey_not_mem (used : List String) : freshKey used ∉ used := by
  intro hmem
  have hA : ("A" : String).length = 1 := rfl
  have hE : ("" : String).length = 0 := rfl
  have h1 : (freshKey used).length = (used.map String.length).sum + 1 := by
    rw [freshKey, String.length_append, concatAll, length_foldl_append, hA, hE]
    omega
  have h2 : (freshKey used).length ≤ (used.map String.length).sum :=
    List.single_le_sum (fun x _ => Nat.zero_le x) _
      (List.mem_map_of_mem String.length hmem)
  omega

theorem spliceFirst_cons (key : String) (r : BPRef) (rs : List BPRef) :
    spliceFirst key (r :: rs) = if r.value = key then rs else r :: spliceFirst key rs := rfl

theorem spliceFirst_eq_filter {k : String} {l : List BPRef}
    (h : (l.map BPRef.value).Nodup) :
    spliceFirst k l = l.filter (fun r => r.value ≠ k) := by
  induction l with
  | nil => rfl
  | cons r rs ih =>
    rw [List.map_cons, List.nodup_cons] at h
    rw [spliceFirst_cons, List.filter_cons]
    by_cases hr : r.value = k
    · rw [if_pos hr]
      have : (decide (r.value ≠ k)) = false := by simp [hr]
      rw [this, if_neg (by simp)]
      symm
      rw [List.filter_eq_self]
      intro x hx
      simp only [ne_eq, decide_eq_true_eq]
      intro heq
      exact h.1 (by rw [hr, ← heq]; exact List.mem_map_of_mem BPRef.value hx)
    · have : (decide (r.value ≠ k)) = true := by simp [hr]
      rw [if_neg hr, this, if_pos rfl, ih h.2]

/-! ## The closed form of the Revert loop -/

theorem keepEntryB_congr {D1 D2 : List String} (h : ∀ x, x ∈ D1 ↔ x ∈ D2)
    (e : String × ScriptEntry) : keepEntryB D1 e = keepEntryB D2 e := by
  simp only [keepEntryB, h]

theorem keepRefB_congr {D1 D2 : List String} (h : ∀ x, x ∈ D1 ↔ x ∈ D2)
    (r : BPRef) : keepRefB D1 r = keepRefB D2 r := by
  simp only [keepRefB, h]

theorem stateOf_congr {p : XcProj} {D1 D2 : List String} (h : ∀ x, x ∈ D1 ↔ x ∈ D2) :
    stateOf p D1 = stateOf p D2 := by
  unfold stateOf
  have h1 : List.filter (keepEntryB D1) p.shellScriptPhases =
      List.filter (keepEntryB D2) p.shellScriptPhases :=
    List.filter_congr (fun e _ => keepEntryB_congr h e)
  have h2 : (fun t : NativeTarget =>
        { t with buildPhases := t.buildPhases.map (List.filter (keepRefB D1)) }) =
      (fun t : NativeTarget =>
        { t with buildPhases := t.buildPhases.map (List.filter (keepRefB D2)) }) := by
    funext t
    have hf : List.filter (keepRefB D1) = List.filter (keepRefB D2) :=
      funext (fun l => List.filter_congr (fun r _ => keepRefB_congr h r))
    rw [hf]
  rw [h1, h2]

theorem updateTarget_id (ts : List (String × NativeTarget)) (u : String) :
    updateTarget ts u (fun t => t) = ts := by
  unfold updateTarget
  have h : ∀ e : String × NativeTarget, (if e.1 = u then (e.1, e.2) else e) = e := by
    intro e
    split <;> rfl
  rw [List.map_congr_left (fun e _ => h e)]
  exact List.map_id ts

theorem stateOf_nil (p : XcProj) : stateOf p [] = p := by
  unfold stateOf
  have h1 : List.filter (keepEntryB []) p.shellScriptPhases = p.shellScriptPhases :=
    List.filter_eq_self.mpr (fun e _ => by simp [keepEntryB])
  have h2 : (fun t : NativeTarget =>
        { t with buildPhases := t.buildPhases.map (List.filter (keepRefB [])) }) =
      (fun t : NativeTarget => t) := by
    funext t
    have hf : ∀ l : List BPRef, List.filter (keepRefB []) l = l :=
      fun l => List.filter_eq_self.mpr (fun r _ => by simp [keepRefB])
    obtain ⟨bp⟩ := t
    cases bp with
    | none => rfl
    | some l => simp [hf]
  rw [h1, h2, updateTarget_id]

theorem keepEntryB_snoc (D : List String) (k : String) (e : String × ScriptEntry) :
    (decide (e.1 ≠ k ++ "_comment") && decide (e.1 ≠ k) && keepEntryB D e) =
      keepEntryB (D ++ [k]) e := by
  rw [Bool.eq_iff_iff]
  simp only [keepEntryB, Bool.and_eq_true, decide_eq_true_eq, List.mem_append,
    List.mem_singleton]
  constructor
  · rintro ⟨⟨h1, h2⟩, h3, h4⟩
    refine ⟨fun h => ?_, fun h => ?_⟩
    · rcases h with h | h
      · exact h3 h
      · exact h2 h
    · rcases h with ⟨k0, hk0, he⟩
      rcases hk0 with hk0 | hk0
      · exact h4 ⟨k0, hk0, he⟩
      · exact h1 (hk0 ▸ he)
  · rintro ⟨h1, h2⟩
    refine ⟨⟨fun h => h2 ⟨k, Or.inr rfl, h⟩, fun h => h1 (Or.inr h)⟩,
      fun h => h1 (Or.inl h), fun h => ?_⟩
    rcases h with ⟨k0, hk0, he⟩
    exact h2 ⟨k0, Or.inl hk0, he⟩

theorem keepRefB_snoc (D : List String) (k : String) (r : BPRef) :
    (decide (r.value ≠ k) && keepRefB D r) = keepRefB (D ++ [k]) r := by
  rw [Bool.eq_iff_iff]
  simp only [keepRefB, Bool.and_eq_true, decide_eq_true_eq, List.mem_append,
    List.mem_singleton]
  constructor
  · rintro ⟨h1, h2⟩ (h | h)
    · exact h2 h
    · exact h1 h
  · intro h
    exact ⟨fun hv => h (Or.inr hv), fun hv => h (Or.inl hv)⟩

theorem killedKey_of_lookup_none {p : XcProj} {k : String}
    (h : alistLookup p.shellScriptPhases k = none) : killedKey p k = false := by
  simp [killedKey, h]

theorem killedKey_of_lookup_comment {p : XcProj} {k s : String}
    (h : alistLookup p.shellScriptPhases k = some (ScriptEntry.comment s)) :
    killedKey p k = false := by
  simp [killedKey, h]

theorem killedKey_of_lookup_phase {p : XcProj} {k : String} {s : ShellPhase}
    (h : alistLookup p.shellScriptPhases k = some (ScriptEntry.phase s)) :
    killedKey p k = matchRevert s.shellScript := by
  simp [killedKey, h]

theorem killedKey_eq_true {p : XcProj} {k : String} :
    killedKey p k = true ↔
      ∃ s, alistLookup p.shellScriptPhases k = some (ScriptEntry.phase s) ∧
        matchRevert s.shellScript = true := by
  unfold killedKey
  cases h : alistLookup p.shellScriptPhases k with
  | none => simp
  | some v =>
    cases v with
    | phase s => simp
    | comment s => simp

theorem unpatchOne_stateOf (p : XcProj)
    (hK : (p.shellScriptPhases.map Prod.fst).Nodup)
    (hT : (p.nativeTargets.map Prod.fst).Nodup)
    (hC : ∀ e ∈ p.shellScriptPhases, casualtyKey p e.1 = true → isPhaseEntry e.2 = false)
    (hV : ((firstTargetRefs p).map BPRef.value).Nodup)
    (D : List String) (hD : ∀ k ∈ D, killedKey p k = true) (k : String) :
    unpatchOne (stateOf p D) k =
      if killedKey p k && decide (k ∉ D) then stateOf p (D ++ [k]) else stateOf p D := by
  have hlf : alistLookup (stateOf p D).shellScriptPhases k =
      (alistLookup p.shellScriptPhases k).bind
        (fun v => if keepEntryB D (k, v) = true then some v else none) :=
    alistLookup_filter hK (keepEntryB D) k
  cases hl : alistLookup p.shellScriptPhases k with
  | none =>
    have hlook : alistLookup (stateOf p D).shellScriptPhases k = none := by
      rw [hlf, hl]; rfl
    rw [killedKey_of_lookup_none hl]
    simp [unpatchOne, hlook]
  | some v =>
    by_cases hkeep : keepEntryB D (k, v) = true
    · have hlook : alistLookup (stateOf p D).shellScriptPhases k = some v := by
        rw [hlf, hl]; simp [hkeep]
      cases v with
      | comment s =>
        rw [killedKey_of_lookup_comment hl]
        simp [unpatchOne, hlook]
      | phase s =>
        rw [killedKey_of_lookup_phase hl]
        by_cases hm : matchRevert s.shellScript = true
        · have hkD : decide (k ∉ D) = true := by
            simp only [keepEntryB, Bool.and_eq_true] at hkeep
            exact hkeep.1
          rw [hm, hkD, Bool.true_and, if_pos rfl]
          have hA : alistRemove (alistRemove ((stateOf p D).shellScriptPhases) k)
              (k ++ "_comment") = p.shellScriptPhases.filter (keepEntryB (D ++ [k])) := by
            show List.filter _ (List.filter _ (List.filter (keepEntryB D) p.shellScriptPhases)) = _
            rw [List.filter_filter, List.filter_filter]
            exact List.filter_congr (fun e _ => keepEntryB_snoc D k e)
          have hB : updateTarget ((stateOf p D).nativeTargets) ((stateOf p D).firstTargetUuid)
                (fun t => { t with buildPhases := t.buildPhases.map (spliceFirst k) }) =
              updateTarget p.nativeTargets p.firstTargetUuid
                (fun t => { t with
                  buildPhases := t.buildPhases.map (List.filter (keepRefB (D ++ [k]))) }) := by
            have hnts : (stateOf p D).nativeTargets =
                updateTarget p.nativeTargets p.firstTargetUuid
                  (fun t => { t with
                    buildPhases := t.buildPhases.map (List.filter (keepRefB D)) }) := rfl
            have hu : (stateOf p D).firstTargetUuid = p.firstTargetUuid := rfl
            rw [hnts, hu, updateTarget_comp]
            apply updateTarget_congr hT
            intro t ht
            obtain ⟨bp⟩ := t
            cases bp with
            | none => rfl
            | some l =>
              have hrefs : firstTargetRefs p = l := by
                unfold firstTargetRefs
                rw [ht]
                rfl
              have hvn : (l.map BPRef.value).Nodup := by rwa [hrefs] at hV
              have hfn : ((List.filter (keepRefB D) l).map BPRef.value).Nodup :=
                List.Nodup.sublist (List.Sublist.map BPRef.value (List.filter_sublist l)) hvn
              have hsplice : spliceFirst k (List.filter (keepRefB D) l) =
                  List.filter (keepRefB (D ++ [k])) l := by
                rw [spliceFirst_eq_filter hfn, List.filter_filter]
                exact List.filter_congr (fun r _ => keepRefB_snoc D k r)
              simp [hsplice]
          simp only [unpatchOne, hlook, hm, if_pos]
          unfold stateOf
          rw [XcProj.mk.injEq]
          exact ⟨hA, rfl, hB, rfl⟩
        · rw [Bool.eq_false_iff.mpr hm]
          simp [unpatchOne, hlook, hm]
    · have hlook : alistLookup (stateOf p D).shellScriptPhases k = none := by
        rw [hlf, hl]; simp [hkeep]
      have hres : unpatchOne (stateOf p D) k = stateOf p D := by
        simp [unpatchOne, hlook]
      rw [hres]
      simp only [keepEntryB, Bool.and_eq_true, decide_eq_true_eq, not_and] at hkeep
      push_neg at hkeep
      by_cases hkD : k ∈ D
      · rw [if_neg (by simp [hkD])]
      · rcases hkeep hkD with ⟨k0, hk0D, heq⟩
        have hkill0 := hD k0 hk0D
        rcases killedKey_eq_true.mp hkill0 with ⟨s0, hl0, -⟩
        have hmem0 : k0 ∈ p.shellScriptPhases.map Prod.fst :=
          List.mem_map_of_mem Prod.fst (alistLookup_mem hl0)
        have hcas : casualtyKey p k = true := by
          unfold casualtyKey
          rw [List.any_eq_true]
          exact ⟨k0, hmem0, by simp [hkill0, heq]⟩
        have hent := hC (k, v) (alistLookup_mem hl) hcas
        cases v with
        | phase s => simp [isPhaseEntry] at hent
        | comment s => rw [killedKey_of_lookup_comment hl]; simp

theorem unpatchGo_stateOf (p : XcProj)
    (hK : (p.shellScriptPhases.map Prod.fst).Nodup)
    (hT : (p.nativeTargets.map Prod.fst).Nodup)
    (hC : ∀ e ∈ p.shellScriptPhases, casualtyKey p e.1 = true → isPhaseEntry e.2 = false)
    (hV : ((firstTargetRefs p).map BPRef.value).Nodup) :
    ∀ (ks D : List String), (∀ k ∈ D, killedKey p k = true) →
      unpatchGo (stateOf p D) ks =
        stateOf p (D ++ ks.filter (fun k => killedKey p k && decide (k ∉ D))) := by
  intro ks
  induction ks with
  | nil =>
    intro D hD
    simp [unpatchGo]
  | cons k ks ih =>
    intro D hD
    show unpatchGo (unpatchOne (stateOf p D) k) ks = _
    rw [unpatchOne_stateOf p hK hT hC hV D hD k]
    by_cases hpred : (killedKey p k && decide (k ∉ D)) = true
    · rw [if_pos hpred]
      have hD' : ∀ x ∈ D ++ [k], killedKey p x = true := by
        intro x hx
        rcases List.mem_append.mp hx with hx | hx
        · exact hD x hx
        · rw [List.mem_singleton.mp hx]
          have hp2 := hpred
          simp only [Bool.and_eq_true] at hp2
          exact hp2.1
      rw [ih (D ++ [k]) hD', List.filter_cons, if_pos hpred]
      apply stateOf_congr
      intro x
      simp only [List.mem_append, List.mem_filter, List.mem_singleton, List.mem_cons,
        Bool.and_eq_true, decide_eq_true_eq]
      constructor
      · intro h
        tauto
      · intro h
        tauto
    · rw [if_neg hpred, ih D hD, List.filter_cons, if_neg hpred]

/-- The Revert loop in closed form: starting from the untouched descriptor, it
removes exactly the killed keys, their paired comment keys, and the killed
references of the first target. -/
theorem unpatch_closed (p : XcProj)
    (hK : (p.shellScriptPhases.map Prod.fst).Nodup)
    (hT : (p.nativeTargets.map Prod.fst).Nodup)
    (hC : ∀ e ∈ p.shellScriptPhases, casualtyKey p e.1 = true → isPhaseEntry e.2 = false)
    (hV : ((firstTargetRefs p).map BPRef.value).Nodup) :
    unpatchXcodeBuildScripts p =
      stateOf p ((p.shellScriptPhases.map Prod.fst).filter (killedKey p)) := by
  unfold unpatchXcodeBuildScripts
  have h0 := unpatchGo_stateOf p hK hT hC hV (p.shellScriptPhases.map Prod.fst) []
    (by intro k hk; simp at hk)
  rw [stateOf_nil] at h0
  rw [h0]
  apply stateOf_congr
  intro x
  simp [List.mem_filter]

theorem killedKey_mem_keys {p : XcProj} {k : String} (h : killedKey p k = true) :
    k ∈ p.shellScriptPhases.map Prod.fst := by
  rcases killedKey_eq_true.mp h with ⟨s, hl, -⟩
  exact List.mem_map_of_mem Prod.fst (alistLookup_mem hl)

theorem mem_killedList {p : XcProj} {x : String} :
    x ∈ (p.shellScriptPhases.map Prod.fst).filter (killedKey p) ↔ killedKey p x = true := by
  rw [List.mem_filter]
  exact ⟨fun h => h.2, fun h => ⟨killedKey_mem_keys h, h⟩⟩

theorem exists_killedList {p : XcProj} {x : String} :
    (∃ k0 ∈ (p.shellScriptPhases.map Prod.fst).filter (killedKey p),
        x = k0 ++ "_comment") ↔ casualtyKey p x = true := by
  unfold casualtyKey
  rw [List.any_eq_true]
  constructor
  · rintro ⟨k0, hk0, he⟩
    rw [mem_killedList] at hk0
    exact ⟨k0, killedKey_mem_keys hk0, by simp [hk0, he]⟩
  · rintro ⟨k0, hk0, hck⟩
    simp only [Bool.and_eq_true, decide_eq_true_eq] at hck
    exact ⟨k0, mem_killedList.mpr hck.1, hck.2⟩

theorem keepEntryB_killedList (p : XcProj) (e : String × ScriptEntry) :
    keepEntryB ((p.shellScriptPhases.map Prod.fst).filter (killedKey p)) e =
      (!(killedKey p e.1) && !(casualtyKey p e.1)) := by
  have d1 : decide (e.1 ∉ (p.shellScriptPhases.map Prod.fst).filter (killedKey p)) =
      !(killedKey p e.1) := by
    cases hkb : killedKey p e.1 with
    | true =>
      have hm : e.1 ∈ (p.shellScriptPhases.map Prod.fst).filter (killedKey p) :=
        mem_killedList.mpr hkb
      rw [Bool.not_true]
      exact decide_eq_false (not_not_intro hm)
    | false =>
      have hm : e.1 ∉ (p.shellScriptPhases.map Prod.fst).filter (killedKey p) := by
        intro hmem
        rw [mem_killedList] at hmem
        rw [hmem] at hkb
        exact Bool.true_eq_false.mp hkb
      rw [Bool.not_false]
      exact decide_eq_true hm
  have d2 : decide (¬ ∃ k0 ∈ (p.shellScriptPhases.map Prod.fst).filter (killedKey p),
      e.1 = k0 ++ "_comment") = !(casualtyKey p e.1) := by
    cases hcb : casualtyKey p e.1 with
    | true =>
      have hm : ∃ k0 ∈ (p.shellScriptPhases.map Prod.fst).filter (killedKey p),
          e.1 = k0 ++ "_comment" := exists_killedList.mpr hcb
      rw [Bool.not_true]
      exact decide_eq_false (not_not_intro hm)
    | false =>
      have hm : ¬ ∃ k0 ∈ (p.shellScriptPhases.map Prod.fst).filter (killedKey p),
          e.1 = k0 ++ "_comment" := by
        intro hex
        rw [exists_killedList] at hex
        rw [hex] at hcb
        exact Bool.true_eq_false.mp hcb
      rw [Bool.not_false]
      exact decide_eq_true hm
  unfold keepEntryB
  rw [d1, d2]

theorem keepRefB_killedList (p : XcProj) (r : BPRef) :
    keepRefB ((p.shellScriptPhases.map Prod.fst).filter (killedKey p)) r =
      !(killedKey p r.value) := by
  unfold keepRefB
  cases hkb : killedKey p r.value with
  | true =>
    have hm : r.value ∈ (p.shellScriptPhases.map Prod.fst).filter (killedKey p) :=
      mem_killedList.mpr hkb
    rw [Bool.not_true]
    exact decide_eq_false (not_not_intro hm)
  | false =>
    have hm : r.value ∉ (p.shellScriptPhases.map Prod.fst).filter (killedKey p) := by
      intro hmem
      rw [mem_killedList] at hmem
      rw [hmem] at hkb
      exact Bool.true_eq_false.mp hkb
    rw [Bool.not_false]
    exact decide_eq_true hm

/-- What Revert does to the `PBXShellScriptBuildPhase` section. -/
theorem unpatch_scripts_eq (p : XcProj) (h : WfProj p) :
    (unpatchXcodeBuildScripts p).shellScriptPhases =
      p.shellScriptPhases.filter (fun e => !(killedKey p e.1) && !(casualtyKey p e.1)) := by
  obtain ⟨hK, hT, hC, hV, -, -⟩ := h
  rw [unpatch_closed p hK hT hC hV]
  show List.filter _ p.shellScriptPhases = _
  exact List.filter_congr (fun e _ => keepEntryB_killedList p e)

/-- What Revert does to the first target's `buildPhases`. -/
theorem unpatch_refs_eq (p : XcProj) (h : WfProj p) :
    firstTargetRefs (unpatchXcodeBuildScripts p) =
      (firstTargetRefs p).filter (fun r => !(killedKey p r.value)) := by
  obtain ⟨hK, hT, hC, hV, -, -⟩ := h
  rw [unpatch_closed p hK hT hC hV]
  unfold firstTargetRefs
  have hnts : (stateOf p ((p.shellScriptPhases.map Prod.fst).filter (killedKey p))).nativeTargets =
      updateTarget p.nativeTargets p.firstTargetUuid
        (fun t => { t with
          buildPhases := t.buildPhases.map
            (List.filter (keepRefB ((p.shellScriptPhases.map Prod.fst).filter (killedKey p)))) }) :=
    rfl
  have hu : (stateOf p ((p.shellScriptPhases.map Prod.fst).filter (killedKey p))).firstTargetUuid =
      p.firstTargetUuid := rfl
  rw [hnts, hu, alistLookup_updateTarget]
  cases hl : alistLookup p.nativeTargets p.firstTargetUuid with
  | none => rfl
  | some t =>
    obtain ⟨bp⟩ := t
    cases bp with
    | none => rfl
    | some l =>
      show List.filter _ l = List.filter _ l
      exact List.filter_congr (fun r _ => keepRefB_killedList p r)

/-- Revert never touches the other phase sections. -/
theorem unpatch_other_eq (p : XcProj) (h : WfProj p) :
    (unpatchXcodeBuildScripts p).otherPhases = p.otherPhases := by
  obtain ⟨hK, hT, hC, hV, -, -⟩ := h
  rw [unpatch_closed p hK hT hC hV]
  rfl

/-- With no matching phase, the Revert loop is the identity. -/
theorem unpatch_noop (p : XcProj) (h : WfProj p)
    (hz : ∀ k, killedKey p k = false) : unpatchXcodeBuildScripts p = p := by
  obtain ⟨hK, hT, hC, hV, -, -⟩ := h
  rw [unpatch_closed p hK hT hC hV]
  have : (p.shellScriptPhases.map Prod.fst).filter (killedKey p) = [] := by
    rw [List.filter_eq_nil_iff]
    intro k _
    rw [hz k]
    exact Bool.false_ne_true
  rw [this, stateOf_nil]

/-! ## Lemmas about the Apply operation -/

theorem addBuildPhase_scripts (p : XcProj) (isaTag comment shellPath shellScript : String) :
    (addBuildPhase p isaTag comment shellPath shellScript).shellScriptPhases =
      p.shellScriptPhases ++
        [(freshKey (p.shellScriptPhases.map Prod.fst ++ p.otherPhases.map Prod.fst),
          ScriptEntry.phase { isa := isaTag, shellPath := shellPath,
                              shellScript := shellScript }),
         (freshKey (p.shellScriptPhases.map Prod.fst ++ p.otherPhases.map Prod.fst)
            ++ "_comment",
          ScriptEntry.comment comment)] := rfl

theorem addBuildPhase_other (p : XcProj) (isaTag comment shellPath shellScript : String) :
    (addBuildPhase p isaTag comment shellPath shellScript).otherPhases = p.otherPhases := rfl

theorem addBuildPhase_refs (p : XcProj) (isaTag comment shellPath shellScript : String)
    (hwf : (alistLookup p.nativeTargets p.firstTargetUuid).isSome = true) :
    firstTargetRefs (addBuildPhase p isaTag comment shellPath shellScript) =
      firstTargetRefs p ++
        [{ value := freshKey (p.shellScriptPhases.map Prod.fst ++ p.otherPhases.map Prod.fst),
           comment := comment }] := by
  unfold firstTargetRefs
  have hnts : (addBuildPhase p isaTag comment shellPath shellScript).nativeTargets =
      updateTarget p.nativeTargets p.firstTargetUuid
        (fun t => { t with buildPhases := some (t.buildPhases.getD [] ++
          [{ value := freshKey (p.shellScriptPhases.map Prod.fst ++ p.otherPhases.map Prod.fst),
             comment := comment }]) }) := rfl
  have hu : (addBuildPhase p isaTag comment shellPath shellScript).firstTargetUuid =
      p.firstTargetUuid := rfl
  rw [hnts, hu, alistLookup_updateTarget]
  cases hl : alistLookup p.nativeTargets p.firstTargetUuid with
  | none => rw [hl] at hwf; simp at hwf
  | some t =>
    obtain ⟨bp⟩ := t
    cases bp with
    | none => rfl
    | some l => rfl

theorem collectBuildScripts_addBuildPhase (p : XcProj)
    (isaTag comment shellPath shellScript : String) (hisa : isaTag ≠ "") :
    collectBuildScripts (addBuildPhase p isaTag comment shellPath shellScript) =
      collectBuildScripts p ++
        [{ isa := isaTag, shellPath := shellPath, shellScript := shellScript }] := by
  unfold collectBuildScripts
  rw [addBuildPhase_scripts, List.filterMap_append]
  congr 1
  simp [hisa]

theorem patchDescr_of_match (p : XcProj)
    (h : (collectBuildScripts p).any (fun s => matchApply s.shellScript) = true) :
    patchXcodeProjDescr p = p := by
  unfold patchXcodeProjDescr addNewXcodeBuildPhaseForSymbols
  rw [if_pos h]

theorem patchDescr_of_no_match (p : XcProj)
    (h : (collectBuildScripts p).any (fun s => matchApply s.shellScript) = false) :
    patchXcodeProjDescr p =
      addBuildPhase p "PBXShellScriptBuildPhase" "Upload Debug Symbols to Sentry" "/bin/sh"
        sentryUploadScript := by
  unfold patchXcodeProjDescr addNewXcodeBuildPhaseForSymbols
  rw [if_neg (by rw [h]; exact Bool.false_ne_true)]

/-- After one Apply, the descriptor holds a collected script matching the
Apply regex (either it already did, or the freshly installed one matches). -/
theorem patchDescr_any_after (p : XcProj) :
    (collectBuildScripts (patchXcodeProjDescr p)).any
      (fun s => matchApply s.shellScript) = true := by
  cases hany : (collectBuildScripts p).any (fun s => matchApply s.shellScript) with
  | true => rw [patchDescr_of_match p hany, hany]
  | false =>
    rw [patchDescr_of_no_match p hany,
      collectBuildScripts_addBuildPhase p _ _ _ _ (by decide), List.any_append, hany]
    simp [matchApply_sentryUploadScript]

/-- The descriptor-level Apply mutation is idempotent. -/
theorem patchDescr_idem (p : XcProj) :
    patchXcodeProjDescr (patchXcodeProjDescr p) = patchXcodeProjDescr p :=
  patchDescr_of_match _ (patchDescr_any_after p)

/-- The bytes on disk after one Apply run of the engine are the serialization
of the mutated descriptor (whether or not a write happened). -/
theorem fileAfterApply_parse (contents : String) (p : XcProj)
    (h : parseXcodeProj contents = some p) :
    fileAfterApply contents = serializeXcodeProj (patchXcodeProjDescr p) := by
  unfold fileAfterApply patchXcodeProjFile patchXcodeProjOut
  rw [h]
  by_cases he : serializeXcodeProj (patchXcodeProjDescr p) = contents
  · simp [he]
  · simp [he]

/-! ## Lemmas about the platform orchestrator -/

/-- The `try`/`catch` around a platform unit's body means its promise always
fulfills, whatever the two awaited steps do. -/
theorem runPlatformUnit_ok (pl : String) (env : PlatformEnv) :
    runPlatformUnit pl env = Except.ok () := by
  unfold runPlatformUnit
  cases platformUnitBody pl env <;> rfl

/-- A rejection of either awaited step is logged by the `catch` inside the
unit's own trace. -/
theorem errorLogged_mem_trace (pl : String) (env : PlatformEnv) (e : String)
    (h : platformUnitBody pl env = Except.error e) :
    EmitEvent.errorLogged e ∈ platformUnitTrace pl env := by
  unfold platformUnitBody at h
  unfold platformUnitTrace
  by_cases hios : pl = "ios"
  · rw [if_pos hios] at h ⊢
    cases hp : env.patchOutcome with
    | error e1 =>
      rw [hp] at h
      simp only [Except.error.injEq] at h
      subst h
      simp
    | ok u =>
      rw [hp] at h
      simp only at h
      rw [h]
      simp
  · rw [if_neg hios] at h ⊢
    simp only at h
    rw [h]
    simp

/-- `Promise.all` over the per-platform units fulfills with every unit
settled, for any environments. -/
theorem emitModel_ok (platforms : List String) (envs : String → PlatformEnv) :
    emitModel platforms envs = Except.ok (platforms.map (fun _ => Except.ok ())) := by
  have hs : platforms.map (fun pl => runPlatformUnit pl (envs pl)) =
      platforms.map (fun _ => Except.ok ()) :=
    List.map_congr_left (fun pl _ => runPlatformUnit_ok pl (envs pl))
  have hf : (platforms.map (fun _ => (Except.ok () : Except String Unit))).find?
      (fun r => match r with | Except.error _ => true | Except.ok _ => false) = none := by
    rw [List.find?_eq_none]
    intro x hx
    rcases List.mem_map.mp hx with ⟨y, -, hy⟩
    rw [← hy]
    simp
  show (match (platforms.map (fun pl => runPlatformUnit pl (envs pl))).find?
      (fun r => match r with | Except.error _ => true | Except.ok _ => false) with
    | some (Except.error e) => Except.error e
    | _ => Except.ok (platforms.map (fun pl => runPlatformUnit pl (envs pl)))) =
      Except.ok (platforms.map (fun _ => Except.ok ()))
  rw [hs, hf]

/-! ## The claims -/

/-- Claim C1: applying the Apply patch operation twice to the same initial
project-descriptor file yields final bytes identical to applying it once — on
the second invocation the file parses to the already-patched descriptor,
which contains a ShellScript phase whose `shellScript` matches the
recognition pattern, `addNewXcodeBuildPhaseForSymbols` adds nothing, and the
serialized output equals the on-disk contents, so `patchXcodeProj` resolves
as a no-op. -/
theorem apply_idempotent_C1 (contents : String) (p : XcProj)
    (h : parseXcodeProj contents = some p) :
    parseXcodeProj (fileAfterApply contents) = some (patchXcodeProjDescr p)
    ∧ (collectBuildScripts (patchXcodeProjDescr p)).any
        (fun s => matchApply s.shellScript) = true
    ∧ patchXcodeProjDescr (patchXcodeProjDescr p) = patchXcodeProjDescr p
    ∧ patchXcodeProjFile (fileAfterApply contents) = Except.ok none
    ∧ fileAfterApply (fileAfterApply contents) = fileAfterApply contents := by
  have hb1 : fileAfterApply contents = serializeXcodeProj (patchXcodeProjDescr p) :=
    fileAfterApply_parse contents p h
  have hparse : parseXcodeProj (fileAfterApply contents) = some (patchXcodeProjDescr p) := by
    rw [hb1]
    exact parse_serialize _
  have hok : patchXcodeProjFile (fileAfterApply contents) = Except.ok none := by
    unfold patchXcodeProjFile
    rw [hparse]
    show Except.ok (patchXcodeProjOut (fileAfterApply contents) (patchXcodeProjDescr p)) =
      Except.ok none
    unfold patchXcodeProjOut
    show Except.ok (if serializeXcodeProj (patchXcodeProjDescr (patchXcodeProjDescr p)) =
        fileAfterApply contents then none
      else some (serializeXcodeProj (patchXcodeProjDescr (patchXcodeProjDescr p)))) =
      Except.ok none
    rw [patchDescr_idem, ← hb1]
    simp
  have hnoop : ∀ c, patchXcodeProjFile c = Except.ok none → fileAfterApply c = c := by
    intro c hc
    unfold fileAfterApply
    rw [hc]
  exact ⟨hparse, patchDescr_any_after p, patchDescr_idem p, hok, hnoop _ hok⟩

/-- Claim C1 instantiated at the serialized example descriptor without a
Sentry phase. -/
theorem apply_idempotent_C1_witness :
    parseXcodeProj (serializeXcodeProj projFresh) = some projFresh
    ∧ fileAfterApply (fileAfterApply (serializeXcodeProj projFresh)) =
        fileAfterApply (serializeXcodeProj projFresh) :=
  ⟨parse_serialize projFresh,
   (apply_idempotent_C1 (serializeXcodeProj projFresh) projFresh
      (parse_serialize projFresh)).2.2.2.2⟩

/-- Claim C2 is false as stated: Revert does not splice the reference out of
the OWNING target's `buildPhases` — Cordova.ts line 112 reads only
`nativeTargets[firstTarget].buildPhases`.  On the well-formed two-target
descriptor `projTwoTargets`, whose matching phase `"AA"` is referenced by the
second target `"T2"`, Revert deletes the phase record and its paired comment
record but leaves `"T2"`'s reference to the now-deleted phase in place — a
dangling reference in the owning target's sequence. -/
theorem revert_removal_C2_counterexample :
    WfProj projTwoTargets
    ∧ matchRevert sentryUploadScript = true
    ∧ alistLookup (unpatchXcodeBuildScripts projTwoTargets).shellScriptPhases "AA" = none
    ∧ alistLookup (unpatchXcodeBuildScripts projTwoTargets).shellScriptPhases
        "AA_comment" = none
    ∧ alistLookup (unpatchXcodeBuildScripts projTwoTargets).nativeTargets "T2" =
        some
          { buildPhases := some
              [{ value := "AA", comment := "Upload Debug Symbols to Sentry" }] } := by
  refine ⟨by decide, by decide, by decide, by decide, by decide⟩

/-- Claim C2, amended (the removal site is the first target, not the owning
target): for every well-formed parsed descriptor, Revert deletes every phase
whose `shellScript` matches the revert pattern together with its paired
`id ++ "_comment"` record (never one without the other — the survivors are
exactly the entries that are neither killed nor a killed key's paired
comment), splices the matching references out of the FIRST (selected)
target's `buildPhases` preserving the order of the rest (a filter — no gap
tokens), leaves every other target's record untouched (a reference held by a
non-first target stays, possibly dangling), and treats zero matches as a
no-op rather than an error. -/
theorem revert_removal_C2_amended (p : XcProj) (h : WfProj p) :
    (unpatchXcodeBuildScripts p).shellScriptPhases =
        p.shellScriptPhases.filter (fun e => !(killedKey p e.1) && !(casualtyKey p e.1))
    ∧ (∀ k s, alistLookup p.shellScriptPhases k = some (ScriptEntry.phase s) →
        matchRevert s.shellScript = true →
        alistLookup (unpatchXcodeBuildScripts p).shellScriptPhases k = none ∧
        alistLookup (unpatchXcodeBuildScripts p).shellScriptPhases (k ++ "_comment") = none)
    ∧ firstTargetRefs (unpatchXcodeBuildScripts p) =
        (firstTargetRefs p).filter (fun r => !(killedKey p r.value))
    ∧ (∀ k, k ≠ p.firstTargetUuid →
        alistLookup (unpatchXcodeBuildScripts p).nativeTargets k =
          alistLookup p.nativeTargets k)
    ∧ ((∀ k, killedKey p k = false) → unpatchXcodeBuildScripts p = p) := by
  have hK : (p.shellScriptPhases.map Prod.fst).Nodup := h.1
  refine ⟨unpatch_scripts_eq p h, ?_, unpatch_refs_eq p h, ?_, unpatch_noop p h⟩
  · intro k s hl hm
    have hkill : killedKey p k = true := killedKey_eq_true.mpr ⟨s, hl, hm⟩
    have hKu : ((unpatchXcodeBuildScripts p).shellScriptPhases) =
        p.shellScriptPhases.filter (fun e => !(killedKey p e.1) && !(casualtyKey p e.1)) :=
      unpatch_scripts_eq p h
    constructor
    · rw [hKu, alistLookup_filter hK, hl]
      simp [hkill]
    · rw [hKu, alistLookup_filter hK]
      cases hlc : alistLookup p.shellScriptPhases (k ++ "_comment") with
      | none => rfl
      | some v =>
        have hcas : casualtyKey p (k ++ "_comment") = true := by
          unfold casualtyKey
          rw [List.any_eq_true]
          exact ⟨k, killedKey_mem_keys hkill, by simp [hkill]⟩
        simp [hcas]
  · intro k hk
    obtain ⟨hK2, hT, hC, hV, -, -⟩ := h
    rw [unpatch_closed p hK2 hT hC hV]
    have hnts : (stateOf p ((p.shellScriptPhases.map Prod.fst).filter
          (killedKey p))).nativeTargets =
        updateTarget p.nativeTargets p.firstTargetUuid
          (fun t => { t with
            buildPhases := t.buildPhases.map
              (List.filter (keepRefB ((p.shellScriptPhases.map Prod.fst).filter
                (killedKey p)))) }) := rfl
    rw [hnts]
    exact alistLookup_updateTarget_ne _ _ _ k hk

/-- Claim C2 (amended) instantiated at the example descriptor: the matching
phase and its paired comment are gone and the first target's remaining
reference order is preserved. -/
theorem revert_removal_C2_amended_witness :
    WfProj projEx
    ∧ alistLookup (unpatchXcodeBuildScripts projEx).shellScriptPhases "AA" = none
    ∧ alistLookup (unpatchXcodeBuildScripts projEx).shellScriptPhases "AA_comment" = none
    ∧ firstTargetRefs (unpatchXcodeBuildScripts projEx) =
        [{ value := "BB", comment := "Run Script" }] := by
  have h := revert_removal_C2_amended projEx (by decide)
  have h2 := h.2.1 "AA"
    { isa := "PBXShellScriptBuildPhase", shellPath := "/bin/sh",
      shellScript := sentryUploadScript } rfl (by decide)
  refine ⟨by decide, h2.1, h2.2, ?_⟩
  rw [h.2.2.1]
  decide

/-- Claim C3: one Apply on a well-formed descriptor with no ShellScript phase
matching the recognition pattern creates exactly one new ShellScript build
phase under a fresh key (plus its paired comment record) and appends its id
at the end of the first target's `buildPhases`; on a descriptor already
holding a matching phase it creates nothing and returns the descriptor
unchanged. -/
theorem apply_add_C3 (p : XcProj) (h : WfProj p) :
    ((∀ e ∈ p.shellScriptPhases, entryMatchesApply e.2 = false) →
      (patchXcodeProjDescr p).shellScriptPhases =
          p.shellScriptPhases ++
            [(freshKey (p.shellScriptPhases.map Prod.fst ++ p.otherPhases.map Prod.fst),
              ScriptEntry.phase { isa := "PBXShellScriptBuildPhase", shellPath := "/bin/sh",
                                  shellScript := sentryUploadScript }),
             (freshKey (p.shellScriptPhases.map Prod.fst ++ p.otherPhases.map Prod.fst)
                ++ "_comment",
              ScriptEntry.comment "Upload Debug Symbols to Sentry")]
        ∧ firstTargetRefs (patchXcodeProjDescr p) =
            firstTargetRefs p ++
              [{ value := freshKey (p.shellScriptPhases.map Prod.fst ++
                    p.otherPhases.map Prod.fst),
                 comment := "Upload Debug Symbols to Sentry" }]
        ∧ freshKey (p.shellScriptPhases.map Prod.fst ++ p.otherPhases.map Prod.fst)
            ∉ p.shellScriptPhases.map Prod.fst)
    ∧ ((∃ e ∈ p.shellScriptPhases, entryMatchesApply e.2 = true) →
        patchXcodeProjDescr p = p) := by
  have hisa : ∀ e ∈ p.shellScriptPhases, phaseIsaTruthy e.2 = true := h.2.2.2.2.1
  have hwfT : (alistLookup p.nativeTargets p.firstTargetUuid).isSome = true := h.2.2.2.2.2
  have hany : (collectBuildScripts p).any (fun s => matchApply s.shellScript) =
      p.shellScriptPhases.any (fun e => entryMatchesApply e.2) := by
    rw [Bool.eq_iff_iff, List.any_eq_true, List.any_eq_true]
    constructor
    · rintro ⟨s, hs, hm⟩
      rcases List.mem_filterMap.mp hs with ⟨e, he, hfe⟩
      refine ⟨e, he, ?_⟩
      cases he2 : e.2 with
      | comment c => rw [he2] at hfe; simp at hfe
      | phase v =>
        rw [he2] at hfe
        simp at hfe
        unfold entryMatchesApply
        rw [hfe.2]
        exact hm
    · rintro ⟨e, he, hm⟩
      cases he2 : e.2 with
      | comment c => rw [he2] at hm; simp [entryMatchesApply] at hm
      | phase v =>
        have hv : v.isa ≠ "" := by
          have := hisa e he
          rw [he2] at this
          simpa [phaseIsaTruthy] using this
        refine ⟨v, List.mem_filterMap.mpr ⟨e, he, by rw [he2]; simp [hv]⟩, ?_⟩
        rw [he2] at hm
        simpa [entryMatchesApply] using hm
  constructor
  · intro hno
    have hfalse : (collectBuildScripts p).any (fun s => matchApply s.shellScript) = false := by
      rw [hany]
      rw [List.any_eq_false]
      intro e he
      rw [hno e he]
      exact Bool.false_ne_true
    rw [patchDescr_of_no_match p hfalse]
    refine ⟨addBuildPhase_scripts p _ _ _ _, addBuildPhase_refs p _ _ _ _ hwfT, ?_⟩
    intro hmem
    exact freshKey_not_mem _ (List.mem_append.mpr (Or.inl hmem))
  · rintro ⟨e, he, hm⟩
    apply patchDescr_of_match
    rw [hany, List.any_eq_true]
    exact ⟨e, he, hm⟩

/-- Claim C3 instantiated: Apply on the fresh example appends the new phase
pair; Apply on the already-patched example is the identity. -/
theorem apply_add_C3_witness :
    WfProj projFresh
    ∧ (∀ e ∈ projFresh.shellScriptPhases, entryMatchesApply e.2 = false)
    ∧ firstTargetRefs (patchXcodeProjDescr projFresh) =
        firstTargetRefs projFresh ++
          [{ value := freshKey (projFresh.shellScriptPhases.map Prod.fst ++
                projFresh.otherPhases.map Prod.fst),
             comment := "Upload Debug Symbols to Sentry" }]
    ∧ patchXcodeProjDescr projEx = projEx := by
  refine ⟨by decide, by decide, ?_, ?_⟩
  · exact ((apply_add_C3 projFresh (by decide)).1 (by decide)).2.1
  · exact (apply_add_C3 projEx (by decide)).2 (by decide)

/-- Claim C4: for both operations the engine serializes the mutated
descriptor and compares the new bytes with the original file bytes; when
identical it signals a no-op (nothing handed back, the caller does not
write), and only when different does it hand back the new content. -/
theorem engine_write_decision_C4 (contents : String) (p : XcProj) :
    applyWriteDecision contents p =
        (if serializeXcodeProj (patchXcodeProjDescr p) = contents then none
         else some (serializeXcodeProj (patchXcodeProjDescr p)))
    ∧ revertWriteDecision contents p =
        (if serializeXcodeProj (unpatchXcodeBuildScripts p) = contents then none
         else some (serializeXcodeProj (unpatchXcodeBuildScripts p))) := by
  constructor
  · unfold applyWriteDecision patchMatchingFileWrite patchXcodeProjOut
    by_cases he : serializeXcodeProj (patchXcodeProjDescr p) = contents
    · simp [he]
    · simp [he]
  · unfold revertWriteDecision patchMatchingFileWrite unpatchXcodeProjOut
    by_cases he : serializeXcodeProj (unpatchXcodeBuildScripts p) = contents
    · simp [he]
    · simp [he]

/-- Claim C5 is false as stated: the recognition pattern is not one shared
constant, and Apply's idempotency check is not equivalent to Revert's
matcher.  The shell-script body `"sentry-cli upload-dsym"` is concretely a
body Apply considers already patched (Apply leaves `projBoundary` unchanged)
while Revert would not remove it (Revert leaves `projBoundary` unchanged
too, removing nothing). -/
theorem pattern_shared_C5_counterexample :
    matchApply "sentry-cli upload-dsym" = true
    ∧ matchRevert "sentry-cli upload-dsym" = false
    ∧ patchXcodeProjDescr projBoundary = projBoundary
    ∧ unpatchXcodeBuildScripts projBoundary = projBoundary := by
  refine ⟨by decide, by decide, by decide, by decide⟩

/-- Claim C5 amended: the two patterns are distinct constants, related by
one-directional implication — every shell-script body Revert would remove is
one Apply considers already patched, and every body Apply considers patched
also matches the orchestrator's `/sentry-cli/gi` content pre-check; the
converse implications do not hold. -/
theorem pattern_shared_C5_amended (s : String) (h : matchRevert s = true) :
    matchApply s = true ∧ matchSentryCliCI s = true :=
  ⟨matchApply_of_matchRevert h,
   matchSentryCliCI_of_matchApply (matchApply_of_matchRevert h)⟩

/-- Claim C5 amended, instantiated at the installed script body. -/
theorem pattern_shared_C5_amended_witness :
    matchRevert sentryUploadScript = true
    ∧ matchApply sentryUploadScript = true
    ∧ matchSentryCliCI sentryUploadScript = true := by
  refine ⟨by decide, ?_, ?_⟩
  · exact (pattern_shared_C5_amended sentryUploadScript (by decide)).1
  · exact (pattern_shared_C5_amended sentryUploadScript (by decide)).2

/-- Claim C6: in Apply mode `shouldConfigurePlatform` is true iff the
per-platform marker file is absent or no located descriptor content matched
the recognition pattern; in uninstall (Revert) mode it returns exactly the
logical negation of that value. -/
theorem should_configure_C6 :
    ∀ propsFileExists contentMatched : Bool,
      shouldConfigurePlatform false propsFileExists contentMatched =
          (!propsFileExists || !contentMatched)
      ∧ shouldConfigurePlatform true propsFileExists contentMatched =
          !(!propsFileExists || !contentMatched) := by
  decide

/-- Claim C7: an error raised inside one platform's unit is caught and logged
within that unit; the unit's promise still fulfills; any sibling platform's
unit behaves exactly as it would without the injected failure; and the
overall `emit` promise resolves once every unit has settled — a per-platform
failure yields a warning plus process-level success, not a rejection. -/
theorem emit_isolation_C7 (platforms : List String) (envs envs' : String → PlatformEnv)
    (a b : String) (e : String)
    (hagree : ∀ pl, pl ≠ a → envs pl = envs' pl)
    (hfail : platformUnitBody a (envs a) = Except.error e)
    (hb : b ≠ a) :
    EmitEvent.errorLogged e ∈ platformUnitTrace a (envs a)
    ∧ runPlatformUnit a (envs a) = Except.ok ()
    ∧ platformUnitTrace b (envs b) = platformUnitTrace b (envs' b)
    ∧ runPlatformUnit b (envs b) = runPlatformUnit b (envs' b)
    ∧ emitModel platforms envs = Except.ok (platforms.map (fun _ => Except.ok ()))
    ∧ emitModel platforms envs' = Except.ok (platforms.map (fun _ => Except.ok ())) := by
  refine ⟨errorLogged_mem_trace a (envs a) e hfail, runPlatformUnit_ok a (envs a),
    ?_, ?_, emitModel_ok platforms envs, emitModel_ok platforms envs'⟩
  · rw [hagree b hb]
  · rw [hagree b hb]

/-- Claim C7 instantiated: a `ParseError` injected into the iOS unit is
logged there, the android unit is untouched, and `emit` still resolves. -/
theorem emit_isolation_C7_witness :
    platformUnitBody "ios" (envsEx "ios") = Except.error "ParseError"
    ∧ EmitEvent.errorLogged "ParseError" ∈ platformUnitTrace "ios" (envsEx "ios")
    ∧ platformUnitTrace "android" (envsEx "android") =
        platformUnitTrace "android" (envsExBase "android")
    ∧ emitModel ["android", "ios"] envsEx =
        Except.ok [Except.ok (), Except.ok ()] := by
  have h := emit_isolation_C7 ["android", "ios"] envsEx envsExBase "ios" "android"
    "ParseError" (fun pl hpl => by simp [envsEx, envsExBase, hpl]) rfl (by decide)
  exact ⟨rfl, h.1, h.2.2.1, h.2.2.2.2.1⟩

/-- Claim C8: both operations inspect and mutate only the
`PBXShellScriptBuildPhase` section — every other phase section is untouched
by Apply and by Revert, every existing entry of the shell-script section
survives Apply unchanged, and every non-matching shell-script entry survives
Revert unchanged. -/
theorem frame_C8 (p : XcProj) (h : WfProj p) :
    (patchXcodeProjDescr p).otherPhases = p.otherPhases
    ∧ (unpatchXcodeBuildScripts p).otherPhases = p.otherPhases
    ∧ (∀ e ∈ p.shellScriptPhases, e ∈ (patchXcodeProjDescr p).shellScriptPhases)
    ∧ (∀ e ∈ p.shellScriptPhases, ∀ s, e.2 = ScriptEntry.phase s →
        matchRevert s.shellScript = false →
        e ∈ (unpatchXcodeBuildScripts p).shellScriptPhases) := by
  have hK : (p.shellScriptPhases.map Prod.fst).Nodup := h.1
  have hC : ∀ e ∈ p.shellScriptPhases, casualtyKey p e.1 = true → isPhaseEntry e.2 = false :=
    h.2.2.1
  refine ⟨?_, unpatch_other_eq p h, ?_, ?_⟩
  · cases hany : (collectBuildScripts p).any (fun s => matchApply s.shellScript) with
    | true => rw [patchDescr_of_match p hany]
    | false => rw [patchDescr_of_no_match p hany, addBuildPhase_other]
  · intro e he
    cases hany : (collectBuildScripts p).any (fun s => matchApply s.shellScript) with
    | true =>
      rw [patchDescr_of_match p hany]
      exact he
    | false =>
      rw [patchDescr_of_no_match p hany, addBuildPhase_scripts]
      exact List.mem_append.mpr (Or.inl he)
  · intro e he s he2 hm
    rw [unpatch_scripts_eq p h, List.mem_filter]
    refine ⟨he, ?_⟩
    have hlook : alistLookup p.shellScriptPhases e.1 = some e.2 := by
      have hpe : (e.1, e.2) = e := rfl
      exact mem_alistLookup hK (hpe ▸ he)
    have hkill : killedKey p e.1 = false := by
      unfold killedKey
      rw [hlook, he2]
      exact hm
    have hcas : casualtyKey p e.1 = false := by
      cases hcb : casualtyKey p e.1 with
      | true =>
        have := hC e he hcb
        rw [he2] at this
        simp [isPhaseEntry] at this
      | false => rfl
    simp [hkill, hcas]

/-- Claim C8 instantiated at the example descriptor. -/
theorem frame_C8_witness :
    WfProj projEx
    ∧ (unpatchXcodeBuildScripts projEx).otherPhases = projEx.otherPhases
    ∧ ("BB", ScriptEntry.phase
        { isa := "PBXShellScriptBuildPhase", shellPath := "/bin/sh",
          shellScript := "echo build" }) ∈
        (unpatchXcodeBuildScripts projEx).shellScriptPhases := by
  have h := frame_C8 projEx (by decide)
  refine ⟨by decide, h.2.1, ?_⟩
  exact h.2.2.2 ("BB", ScriptEntry.phase
      { isa := "PBXShellScriptBuildPhase", shellPath := "/bin/sh",
        shellScript := "echo build" }) (by decide) _ rfl (by decide)

/-- Claim C9: within one platform's unit the patch step (run only for the
iOS platform) always completes before the properties-file write begins, and
non-iOS units never start the patch step. -/
theorem unit_order_C9 (env : PlatformEnv) :
    (∀ i j, (platformUnitTrace "ios" env).get? i = some EmitEvent.patchFinished →
        (platformUnitTrace "ios" env).get? j = some EmitEvent.propertiesWriteStarted →
        i < j)
    ∧ (EmitEvent.propertiesWriteStarted ∈ platformUnitTrace "ios" env →
        EmitEvent.patchFinished ∈ platformUnitTrace "ios" env)
    ∧ (∀ platform, platform ≠ "ios" →
        EmitEvent.patchStarted ∉ platformUnitTrace platform env) := by
  obtain ⟨po, qo⟩ := env
  refine ⟨?_, ?_, ?_⟩
  · intro i j hi hj
    cases po with
    | error e1 =>
      have htr : platformUnitTrace "ios" ⟨Except.error e1, qo⟩ =
          [EmitEvent.patchStarted, EmitEvent.errorLogged e1] := rfl
      rw [htr] at hj
      rcases j with _ | _ | j <;> simp [List.get?] at hj
    | ok u =>
      cases qo with
      | error e2 =>
        have htr : platformUnitTrace "ios" ⟨Except.ok u, Except.error e2⟩ =
            [EmitEvent.patchStarted, EmitEvent.patchFinished,
             EmitEvent.propertiesWriteStarted, EmitEvent.errorLogged e2] := rfl
        rw [htr] at hi hj
        rcases i with _ | _ | _ | _ | i <;> rcases j with _ | _ | _ | _ | j <;>
          simp [List.get?] at hi hj <;> omega
      | ok u2 =>
        have htr : platformUnitTrace "ios" ⟨Except.ok u, Except.ok u2⟩ =
            [EmitEvent.patchStarted, EmitEvent.patchFinished,
             EmitEvent.propertiesWriteStarted, EmitEvent.propertiesWriteFinished,
             EmitEvent.successLogged "ios"] := rfl
        rw [htr] at hi hj
        rcases i with _ | _ | _ | _ | _ | i <;> rcases j with _ | _ | _ | _ | _ | j <;>
          simp [List.get?] at hi hj <;> omega
  · intro hmem
    cases po with
    | error e1 =>
      have htr : platformUnitTrace "ios" ⟨Except.error e1, qo⟩ =
          [EmitEvent.patchStarted, EmitEvent.errorLogged e1] := rfl
      rw [htr] at hmem
      simp at hmem
    | ok u =>
      cases qo with
      | error e2 =>
        have htr : platformUnitTrace "ios" ⟨Except.ok u, Except.error e2⟩ =
            [EmitEvent.patchStarted, EmitEvent.patchFinished,
             EmitEvent.propertiesWriteStarted, EmitEvent.errorLogged e2] := rfl
        rw [htr]
        simp
      | ok u2 =>
        have htr : platformUnitTrace "ios" ⟨Except.ok u, Except.ok u2⟩ =
            [EmitEvent.patchStarted, EmitEvent.patchFinished,
             EmitEvent.propertiesWriteStarted, EmitEvent.propertiesWriteFinished,
             EmitEvent.successLogged "ios"] := rfl
        rw [htr]
        simp
  · intro pl hpl hmem
    unfold platformUnitTrace at hmem
    rw [if_neg hpl] at hmem
    cases qo <;> simp at hmem

/-- Claim C9 instantiated at the all-healthy environment. -/
theorem unit_order_C9_witness :
    (platformUnitTrace "ios" envOk).get? 1 = some EmitEvent.patchFinished
    ∧ (platformUnitTrace "ios" envOk).get? 2 = some EmitEvent.propertiesWriteStarted
    ∧ 1 < 2 :=
  ⟨by decide, by decide, (unit_order_C9 envOk).1 1 2 (by decide) (by decide)⟩

/-- Claim C10: `checkPackageVersion` returns false when the package maps to
no entry (or an empty string) in both dependency maps, and otherwise returns
true iff at least one of the two version strings fulfills the acceptable
range — where `'latest'` fulfills iff `canBeLatest`, a (truthy) valid exact
version fulfills iff it satisfies the range, a (truthy) valid range fulfills
iff it is a subset of the range, and any other string never fulfills. -/
theorem package_check_C10 (sv : SemverOracle) (appPackage : PackageDotJson)
    (packageName acceptableVersions : String) (canBeLatest : Bool) :
    ((depLookup appPackage.dependencies packageName = "" ∧
        depLookup appPackage.devDependencies packageName = "") →
      checkPackageVersion sv appPackage packageName acceptableVersions canBeLatest = false)
    ∧ (¬(depLookup appPackage.dependencies packageName = "" ∧
          depLookup appPackage.devDependencies packageName = "") →
        checkPackageVersion sv appPackage packageName acceptableVersions canBeLatest =
          (fulfillsVersionRange sv (depLookup appPackage.dependencies packageName)
              acceptableVersions canBeLatest ||
           fulfillsVersionRange sv (depLookup appPackage.devDependencies packageName)
              acceptableVersions canBeLatest))
    ∧ fulfillsVersionRange sv "latest" acceptableVersions canBeLatest = canBeLatest
    ∧ (∀ version c, version ≠ "latest" → sv.valid version = some c → c ≠ "" →
        fulfillsVersionRange sv version acceptableVersions canBeLatest =
          sv.satisfies c acceptableVersions)
    ∧ (∀ version c, version ≠ "latest" → truthyOptStr (sv.valid version) = false →
        sv.validRange version = some c → c ≠ "" →
        fulfillsVersionRange sv version acceptableVersions canBeLatest =
          sv.subset c acceptableVersions)
    ∧ (∀ version, version ≠ "latest" → truthyOptStr (sv.valid version) = false →
        truthyOptStr (sv.validRange version) = false →
        fulfillsVersionRange sv version acceptableVersions canBeLatest = false) := by
  refine ⟨?_, ?_, ?_, ?_, ?_, ?_⟩
  · rintro ⟨h1, h2⟩
    simp [checkPackageVersion, h1, h2]
  · intro hne
    have hc : (decide (depLookup appPackage.dependencies packageName = "") &&
        decide (depLookup appPackage.devDependencies packageName = "")) = false := by
      by_cases h1 : depLookup appPackage.dependencies packageName = ""
      · by_cases h2 : depLookup appPackage.devDependencies packageName = ""
        · exact absurd ⟨h1, h2⟩ hne
        · simp [h2]
      · simp [h1]
    simp only [checkPackageVersion]
    rw [hc]
    cases hf1 : fulfillsVersionRange sv (depLookup appPackage.dependencies packageName)
        acceptableVersions canBeLatest <;>
      cases hf2 : fulfillsVersionRange sv (depLookup appPackage.devDependencies packageName)
          acceptableVersions canBeLatest <;>
      simp [hf1, hf2]
  · simp [fulfillsVersionRange]
  · intro version c h1 h2 h3
    have ht : truthyOptStr (sv.valid version) = true := by
      rw [h2]
      simpa [truthyOptStr] using h3
    unfold fulfillsVersionRange
    rw [if_neg h1, if_pos ht, h2]
    rfl
  · intro version c h1 h2 h3 h4
    have ht : truthyOptStr (sv.validRange version) = true := by
      rw [h3]
      simpa [truthyOptStr] using h4
    unfold fulfillsVersionRange
    rw [if_neg h1, if_neg (by rw [h2]; exact Bool.false_ne_true), if_pos ht, h3]
    rfl
  · intro version h1 h2 h3
    unfold fulfillsVersionRange
    rw [if_neg h1, if_neg (by rw [h2]; exact Bool.false_ne_true),
        if_neg (by rw [h3]; exact Bool.false_ne_true)]

/-- Claim C10 instantiated at a tiny oracle and `package.json`. -/
theorem package_check_C10_witness :
    ¬(depLookup pkgEx.dependencies "@sentry/cli" = "" ∧
        depLookup pkgEx.devDependencies "@sentry/cli" = "")
    ∧ checkPackageVersion svEx pkgEx "@sentry/cli" "^1.0.0" false =
        (fulfillsVersionRange svEx (depLookup pkgEx.dependencies "@sentry/cli")
            "^1.0.0" false ||
         fulfillsVersionRange svEx (depLookup pkgEx.devDependencies "@sentry/cli")
            "^1.0.0" false)
    ∧ fulfillsVersionRange svEx "latest" "^1.0.0" true = true := by
  refine ⟨by decide, ?_, ?_⟩
  · exact (package_check_C10 svEx pkgEx "@sentry/cli" "^1.0.0" false).2.1 (by decide)
  · exact (package_check_C10 svEx pkgEx "@sentry/cli" "^1.0.0" true).2.2.1
